import Mathlib

/-!
Verification of the ucan conformance-test fixture generator.

Texts are modelled as lists of Unicode scalar values (`Text := List Nat`),
byte strings as lists of naturals below 256.  The canonical codec
(base64url without padding, UTF-8, compact JSON with BTreeMap key order),
the tamper engine from src/generators/mutate.rs, and the fixture catalogs
are embedded below; external collaborators (signer, hasher, the ucan
builder crate) are modelled from the contracts stated in the design
document.
-/

set_option maxRecDepth 4000

abbrev Text := List Nat

/-- Unicode scalar codepoints from a Lean string literal. -/
def txt (s : String) : Text := s.data.map Char.toNat

/-- A codepoint is a Unicode scalar value (no surrogates, below 0x110000). -/
def validCpB (n : Nat) : Bool := n < 0xD800 || (0xE000 ≤ n && n < 0x110000)

/-! ## base64url without padding (the `base64` crate, URL_SAFE_NO_PAD) -/
/-- The base64url alphabet: A-Z, a-z, 0-9, minus, underscore. -/
def b64Char (n : Nat) : Nat :=
  if n < 26 then 65 + n
  else if n < 52 then 97 + (n - 26)
  else if n < 62 then 48 + (n - 52)
  else if n = 62 then 45
  else 95

def b64CharDec (c : Nat) : Option Nat :=
  if 65 ≤ c ∧ c ≤ 90 then some (c - 65)
  else if 97 ≤ c ∧ c ≤ 122 then some (c - 97 + 26)
  else if 48 ≤ c ∧ c ≤ 57 then some (c - 48 + 52)
  else if c = 45 then some 62
  else if c = 95 then some 63
  else none

/-- Unpadded base64url encoding of a byte string. -/
def base64urlEncode : List Nat → Text
  | [] => []
  | [b1] => [b64Char (b1 / 4), b64Char (b1 % 4 * 16)]
  | [b1, b2] => [b64Char (b1 / 4), b64Char (b1 % 4 * 16 + b2 / 16), b64Char (b2 % 16 * 4)]
  | b1 :: b2 :: b3 :: rest =>
      b64Char (b1 / 4) :: b64Char (b1 % 4 * 16 + b2 / 16) ::
        b64Char (b2 % 16 * 4 + b3 / 64) :: b64Char (b3 % 64) :: base64urlEncode rest

/-- Strict unpadded base64url decoding: rejects foreign characters, a
trailing chunk of length 1, and set trailing bits (the crate's default). -/
def base64urlDecode : Text → Option (List Nat)
  | [] => some []
  | [_] => none
  | [c1, c2] => do
      let n1 ← b64CharDec c1
      let n2 ← b64CharDec c2
      if n2 % 16 = 0 then some [n1 * 4 + n2 / 16] else none
  | [c1, c2, c3] => do
      let n1 ← b64CharDec c1
      let n2 ← b64CharDec c2
      let n3 ← b64CharDec c3
      if n3 % 4 = 0 then some [n1 * 4 + n2 / 16, n2 % 16 * 16 + n3 / 4] else none
  | c1 :: c2 :: c3 :: c4 :: rest => do
      let n1 ← b64CharDec c1
      let n2 ← b64CharDec c2
      let n3 ← b64CharDec c3
      let n4 ← b64CharDec c4
      let tl ← base64urlDecode rest
      some ((n1 * 4 + n2 / 16) :: (n2 % 16 * 16 + n3 / 4) :: (n3 % 4 * 64 + n4) :: tl)

/-! ## UTF-8 (Rust `String::from_utf8` / `str::as_bytes`) -/
/-- UTF-8 encoding of one Unicode scalar value. -/
def utf8EncodeCp (n : Nat) : List Nat :=
  if n < 0x80 then [n]
  else if n < 0x800 then [0xC0 + n / 64, 0x80 + n % 64]
  else if n < 0x10000 then [0xE0 + n / 4096, 0x80 + n / 64 % 64, 0x80 + n % 64]
  else [0xF0 + n / 262144, 0x80 + n / 4096 % 64, 0x80 + n / 64 % 64, 0x80 + n % 64]

def utf8Encode (t : Text) : List Nat := (t.map utf8EncodeCp).flatten

def isAscii (b : Nat) : Bool := b < 128

def contB (b : Nat) : Bool := 128 ≤ b && b < 192

def isTwo (b : Nat) : Bool := 194 ≤ b && b < 224

def isThree (b : Nat) : Bool := 224 ≤ b && b < 240

def isFour (b : Nat) : Bool := 240 ≤ b && b < 245

def chk3 (b1 b2 b3 : Nat) : Bool :=
  contB b2 && contB b3 && (b1 != 224 || 160 ≤ b2) && (b1 != 237 || b2 < 160)

def chk4 (b1 b2 b3 b4 : Nat) : Bool :=
  contB b2 && contB b3 && contB b4 && (b1 != 240 || 144 ≤ b2) && (b1 != 244 || b2 < 144)

def cp2 (b1 b2 : Nat) : Nat := (b1 - 192) * 64 + (b2 - 128)

def cp3 (b1 b2 b3 : Nat) : Nat := (b1 - 224) * 4096 + (b2 - 128) * 64 + (b3 - 128)

def cp4 (b1 b2 b3 b4 : Nat) : Nat :=
  (b1 - 240) * 262144 + (b2 - 128) * 4096 + (b3 - 128) * 64 + (b4 - 128)

/-- Strict UTF-8 decoding: rejects stray continuation bytes, overlong
encodings, surrogate codepoints and values above 0x10FFFF, as Rust's
`String::from_utf8` does. -/
def utf8Decode : List Nat → Option Text
  | [] => some []
  | [b1] => if isAscii b1 then some [b1] else none
  | [b1, b2] =>
      if isAscii b1 then (utf8Decode [b2]).map (fun t => b1 :: t)
      else if isTwo b1 && contB b2 then some [cp2 b1 b2]
      else none
  | [b1, b2, b3] =>
      if isAscii b1 then (utf8Decode [b2, b3]).map (fun t => b1 :: t)
      else if isTwo b1 && contB b2 then (utf8Decode [b3]).map (fun t => cp2 b1 b2 :: t)
      else if isThree b1 && chk3 b1 b2 b3 then some [cp3 b1 b2 b3]
      else none
  | b1 :: b2 :: b3 :: b4 :: rest =>
      if isAscii b1 then (utf8Decode (b2 :: b3 :: b4 :: rest)).map (fun t => b1 :: t)
      else if isTwo b1 && contB b2 then
        (utf8Decode (b3 :: b4 :: rest)).map (fun t => cp2 b1 b2 :: t)
      else if isThree b1 && chk3 b1 b2 b3 then
        (utf8Decode (b4 :: rest)).map (fun t => cp3 b1 b2 b3 :: t)
      else if isFour b1 && chk4 b1 b2 b3 b4 then
        (utf8Decode rest).map (fun t => cp4 b1 b2 b3 b4 :: t)
      else none

/-! ## JSON values (`serde_json::Value`, maps as `BTreeMap` assoc lists)
Numbers are modelled as unbounded integers (the generator only produces
integers within the i64/u64 range); floating-point literals are outside
the model, and the parser rejects fraction and exponent markers. -/
inductive Jval where
  | null
  | bool (b : Bool)
  | num (n : Int)
  | str (s : Text)
  | arr (xs : List Jval)
  | obj (kvs : List (Text × Jval))

/-- Lexicographic order on texts by scalar value: the order of Rust
`String` keys in a `BTreeMap` (UTF-8 byte order coincides with scalar
order). -/
def textLt : Text → Text → Bool
  | [], [] => false
  | [], _ :: _ => true
  | _ :: _, [] => false
  | a :: as, b :: bs => if a < b then true else if b < a then false else textLt as bs

/-- Sorted insert replacing an equal key: `BTreeMap::insert`. -/
def insertKey (k : Text) (v : Jval) : List (Text × Jval) → List (Text × Jval)
  | [] => [(k, v)]
  | (k1, v1) :: rest =>
      if textLt k k1 then (k, v) :: (k1, v1) :: rest
      else if k = k1 then (k, v) :: rest
      else (k1, v1) :: insertKey k v rest

/-- `BTreeMap::remove` (ignoring the returned value). -/
def eraseKey (k : Text) : List (Text × Jval) → List (Text × Jval)
  | [] => []
  | (k1, v1) :: rest => if k = k1 then rest else (k1, v1) :: eraseKey k rest

/-- In-place overwrite of an existing key: `*map.get_mut(field).unwrap() = value`. -/
def setKey (k : Text) (v : Jval) : List (Text × Jval) → List (Text × Jval)
  | [] => []
  | (k1, v1) :: rest => if k = k1 then (k, v) :: rest else (k1, v1) :: setKey k v rest

def containsKey (k : Text) : List (Text × Jval) → Bool
  | [] => false
  | (k1, _) :: rest => k = k1 || containsKey k rest

def lookupKey (k : Text) : List (Text × Jval) → Option Jval
  | [] => none
  | (k1, v1) :: rest => if k = k1 then some v1 else lookupKey k rest

def keysSorted : List (Text × Jval) → Bool
  | [] => true
  | [_] => true
  | (k1, _) :: (k2, v2) :: rest => textLt k1 k2 && keysSorted ((k2, v2) :: rest)

mutual

/-- Well-formed JSON value: object keys strictly sorted (the `BTreeMap`
invariant) and every text made of Unicode scalar values. -/
def Jval.wfB : Jval → Bool
  | .null => true
  | .bool _ => true
  | .num _ => true
  | .str s => s.all validCpB
  | .arr xs => wfListB xs
  | .obj kvs => keysSorted kvs && wfPairsB kvs
termination_by structural v => v

def wfListB : List Jval → Bool
  | [] => true
  | v :: vs => v.wfB && wfListB vs
termination_by structural l => l

def wfPairsB : List (Text × Jval) → Bool
  | [] => true
  | (k, v) :: rest => k.all validCpB && v.wfB && wfPairsB rest
termination_by structural l => l

end

/-! ### Compact serialization (`serde_json::Value::to_string`) -/
def digitsChars (n : Nat) : Text :=
  if h : n < 10 then [48 + n] else digitsChars (n / 10) ++ [48 + n % 10]
decreasing_by exact Nat.div_lt_self (by omega) (by omega)

def serNum (i : Int) : Text :=
  if i < 0 then 45 :: digitsChars i.natAbs else digitsChars i.natAbs

/-- Lowercase hex digit, as serde_json writes in `\u00xx` escapes. -/
def hexDigit (n : Nat) : Nat := if n < 10 then 48 + n else 87 + n

/-- serde_json string escaping: quote, backslash, the named control
escapes `\b \t \n \f \r`, `\u00xx` for other control characters, all
other characters written raw. -/
def escapeCp (c : Nat) : Text :=
  if c = 34 then [92, 34]
  else if c = 92 then [92, 92]
  else if c = 8 then [92, 98]
  else if c = 9 then [92, 116]
  else if c = 10 then [92, 110]
  else if c = 12 then [92, 102]
  else if c = 13 then [92, 114]
  else if c < 32 then [92, 117, 48, 48, hexDigit (c / 16), hexDigit (c % 16)]
  else [c]

def serStr (s : Text) : Text := 34 :: (s.map escapeCp).flatten ++ [34]

mutual

/-- Compact JSON serialization: no whitespace, object fields in map
(sorted-key) order. -/
def Jval.ser : Jval → Text
  | .null => [110, 117, 108, 108]
  | .bool true => [116, 114, 117, 101]
  | .bool false => [102, 97, 108, 115, 101]
  | .num i => serNum i
  | .str s => serStr s
  | .arr xs => 91 :: serArr xs ++ [93]
  | .obj kvs => 123 :: serObj kvs ++ [125]
termination_by structural v => v

def serArr : List Jval → Text
  | [] => []
  | [v] => v.ser
  | v :: v2 :: rest => v.ser ++ 44 :: serArr (v2 :: rest)
termination_by structural l => l

def serObj : List (Text × Jval) → Text
  | [] => []
  | [(k, v)] => serStr k ++ 58 :: v.ser
  | (k, v) :: kv2 :: rest => serStr k ++ 58 :: v.ser ++ 44 :: serObj (kv2 :: rest)
termination_by structural l => l

end

/-! ### Strict parsing (`serde_json::from_str`) -/
def isWs (c : Nat) : Bool := c = 32 || c = 9 || c = 10 || c = 13

def skipWs : Text → Text
  | [] => []
  | c :: rest => if isWs c then skipWs rest else c :: rest

def isDigit (c : Nat) : Bool := 48 ≤ c && c ≤ 57

def parseDigits : Text → (List Nat × Text)
  | [] => ([], [])
  | c :: rest =>
      if isDigit c then
        let p := parseDigits rest
        ((c - 48) :: p.1, p.2)
      else ([], c :: rest)

def digitsToNat (ds : List Nat) : Nat := ds.foldl (fun a d => a * 10 + d) 0

/-- A fraction or exponent marker would start a float literal, which is
outside the model. -/
def numTail : Text → Bool
  | [] => false
  | c :: _ => c = 46 || c = 101 || c = 69

/-- Parse a JSON integer literal: optional minus, no leading zero. -/
def parseNum (t : Text) : Option (Int × Text) :=
  match t with
  | [] => none
  | c :: rest =>
      if c = 45 then
        match parseDigits rest with
        | ([], _) => none
        | (d :: ds, r) =>
            if d = 0 ∧ ds ≠ [] then none
            else if numTail r then none
            else some (-(digitsToNat (d :: ds) : Int), r)
      else
        match parseDigits (c :: rest) with
        | ([], _) => none
        | (d :: ds, r) =>
            if d = 0 ∧ ds ≠ [] then none
            else if numTail r then none
            else some ((digitsToNat (d :: ds) : Int), r)

def isHex (c : Nat) : Bool := (48 ≤ c && c ≤ 57) || (97 ≤ c && c ≤ 102) || (65 ≤ c && c ≤ 70)

def hexValD (c : Nat) : Nat := if c ≤ 57 then c - 48 else if c ≤ 70 then c - 55 else c - 87

def escCharB (e : Nat) : Bool :=
  e = 34 || e = 92 || e = 47 || e = 98 || e = 116 || e = 110 || e = 102 || e = 114

def escCharD (e : Nat) : Nat :=
  if e = 98 then 8
  else if e = 116 then 9
  else if e = 110 then 10
  else if e = 102 then 12
  else if e = 114 then 13
  else e

mutual

/-- Parse a JSON string body after the opening quote, returning the
unescaped content and the remainder after the closing quote.  Surrogate
pair escapes are not modelled (the serializer never emits them). -/
def parseStrBody : Text → Option (Text × Text)
  | [] => none
  | c :: rest =>
      if c = 34 then some ([], rest)
      else if c = 92 then parseEsc rest
      else if c < 32 then none
      else (parseStrBody rest).map (fun p => (c :: p.1, p.2))

def parseEsc : Text → Option (Text × Text)
  | [] => none
  | e :: rest =>
      if e = 117 then parseHexEsc rest
      else if escCharB e then (parseStrBody rest).map (fun p => (escCharD e :: p.1, p.2))
      else none

def parseHexEsc : Text → Option (Text × Text)
  | x1 :: x2 :: x3 :: x4 :: rest =>
      if isHex x1 && isHex x2 && isHex x3 && isHex x4 then
        let n := hexValD x1 * 4096 + hexValD x2 * 256 + hexValD x3 * 16 + hexValD x4
        if 55296 ≤ n ∧ n < 57344 then none
        else (parseStrBody rest).map (fun p => (n :: p.1, p.2))
      else none
  | _ => none

end

def expects : Text → Text → Option Text
  | [], t => some t
  | p :: ps, c :: cs => if c = p then expects ps cs else none
  | _ :: _, [] => none

/-- Sequential `BTreeMap::insert` of parsed object fields: a later
duplicate key overwrites an earlier one. -/
def foldIns (l : List (Text × Jval)) : List (Text × Jval) :=
  l.foldl (fun m kv => insertKey kv.1 kv.2 m) []

mutual

/-- Fuel-indexed JSON value parser. -/
def parseVal : Nat → Text → Option (Jval × Text)
  | 0, _ => none
  | f + 1, t =>
      match skipWs t with
      | [] => none
      | c :: rest =>
          if c = 110 then (expects [117, 108, 108] rest).map (fun r => (Jval.null, r))
          else if c = 116 then (expects [114, 117, 101] rest).map (fun r => (Jval.bool true, r))
          else if c = 102 then
            (expects [97, 108, 115, 101] rest).map (fun r => (Jval.bool false, r))
          else if c = 34 then (parseStrBody rest).map (fun p => (Jval.str p.1, p.2))
          else if c = 91 then parseArrStart f rest
          else if c = 123 then parseObjStart f rest
          else if c = 45 || isDigit c then (parseNum (c :: rest)).map (fun p => (Jval.num p.1, p.2))
          else none

def parseArrStart : Nat → Text → Option (Jval × Text)
  | 0, _ => none
  | f + 1, t =>
      match skipWs t with
      | [] => none
      | c :: rest =>
          if c = 93 then some (Jval.arr [], rest)
          else (parseArrItems f (c :: rest)).map (fun p => (Jval.arr p.1, p.2))

def parseArrItems : Nat → Text → Option (List Jval × Text)
  | 0, _ => none
  | f + 1, t =>
      match parseVal f t with
      | none => none
      | some (v, r) =>
          match skipWs r with
          | [] => none
          | c :: r2 =>
              if c = 44 then (parseArrItems f r2).map (fun p => (v :: p.1, p.2))
              else if c = 93 then some ([v], r2)
              else none

def parseObjStart : Nat → Text → Option (Jval × Text)
  | 0, _ => none
  | f + 1, t =>
      match skipWs t with
      | [] => none
      | c :: rest =>
          if c = 125 then some (Jval.obj [], rest)
          else (parseObjItems f (c :: rest)).map (fun p => (Jval.obj (foldIns p.1), p.2))

def parseObjItems : Nat → Text → Option (List (Text × Jval) × Text)
  | 0, _ => none
  | f + 1, t =>
      match skipWs t with
      | [] => none
      | c :: rest =>
          if c = 34 then
            match parseStrBody rest with
            | none => none
            | some (k, r) =>
                match skipWs r with
                | [] => none
                | c2 :: r2 =>
                    if c2 = 58 then
                      match parseVal f r2 with
                      | none => none
                      | some (v, r3) =>
                          match skipWs r3 with
                          | [] => none
                          | c3 :: r4 =>
                              if c3 = 44 then
                                (parseObjItems f r4).map (fun p => ((k, v) :: p.1, p.2))
                              else if c3 = 125 then some ([(k, v)], r4)
                              else none
                    else none
          else none

end

/-! ### Number literal lemmas -/
def natDigits (n : Nat) : List Nat :=
  if _ : n < 10 then [n] else natDigits (n / 10) ++ [n % 10]
decreasing_by exact Nat.div_lt_self (by omega) (by omega)

def noDigitHead : Text → Bool
  | [] => true
  | c :: _ => !isDigit c

/-- The contexts in which a serialized value can occur inside a larger
serialized document: end of input, or before a comma or closing bracket. -/
def delimB : Text → Bool
  | [] => true
  | c :: _ => c = 44 || c = 93 || c = 125

/-! ## The canonical codec of src/generators/mutate.rs -/
/-- `part_to_map`: base64url-decode the part, read it as UTF-8, parse the
JSON object (`serde_json::from_str` into a `Map`); every `unwrap` panic in
the Rust code is modelled as `none`. -/
def part_to_map (part : Text) : Option (List (Text × Jval)) := do
  let bytes ← base64urlDecode part
  let s ← utf8Decode bytes
  match parseVal (3 * s.length + 3) s with
  | some (Jval.obj kvs, rest) => if (skipWs rest).isEmpty then some kvs else none
  | _ => none

/-- `map_to_part`: serialize the map to compact JSON
(`Value::Object(map).to_string()`) and base64url-encode its UTF-8 bytes. -/
def map_to_part (m : List (Text × Jval)) : Text :=
  base64urlEncode (utf8Encode (Jval.ser (Jval.obj m)))

/-! ## The tamper engine (src/generators/mutate.rs) -/
/-- External signer contract (spec §6): an Ed25519 keypair with a derived
DID; `verify(pubkey, bytes, sign(bytes))` holds and signatures are raw
bytes. -/
structure Signer where
  sign : List Nat → List Nat
  verify : List Nat → List Nat → Bool
  did : Text
  verify_sign : ∀ bs, verify bs (sign bs) = true
  sign_bytes_lt : ∀ bs, ∀ b ∈ sign bs, b < 256

/-- `sign` from src/generators/mutate.rs: sign the UTF-8 bytes of
`header.payload` and append the unpadded base64url signature part. -/
def signParts (header payload : Text) (signer : Signer) : Text :=
  header ++ 46 :: payload ++ 46 ::
    base64urlEncode (signer.sign (utf8Encode (header ++ 46 :: payload)))

/-- Rust `str::split('.')`. -/
def splitOnDot : Text → List Text
  | [] => [[]]
  | c :: rest =>
      if c = 46 then [] :: splitOnDot rest
      else
        match splitOnDot rest with
        | p :: ps => (c :: p) :: ps
        | [] => [[c]]

/-- The spec's error taxonomy (§7); the Rust code surfaces these as
panics (`unwrap` / `panic!`). -/
inductive TamperError where
  | decodeError
  | fieldNotFound
  | unsupportedPart
deriving DecidableEq

def headerStr : Text := [104, 101, 97, 100, 101, 114]

def payloadStr : Text := [112, 97, 121, 108, 111, 97, 100]

/-- `remove_field`: split the token on dots, decode the named part,
delete the field (a no-op when absent), re-encode that part, re-sign;
the other part is reused verbatim. -/
def remove_field (token part field : Text) (signer : Signer) : Except TamperError Text :=
  let parts := splitOnDot token
  if part = headerStr then
    match parts with
    | p0 :: p1 :: _ =>
        match part_to_map p0 with
        | some m => .ok (signParts (map_to_part (eraseKey field m)) p1 signer)
        | none => .error .decodeError
    | _ => .error .decodeError
  else if part = payloadStr then
    match parts with
    | p0 :: p1 :: _ =>
        match part_to_map p1 with
        | some m => .ok (signParts p0 (map_to_part (eraseKey field m)) signer)
        | none => .error .decodeError
    | _ => .error .decodeError
  else .error .unsupportedPart

/-- `mutate_field`: like `remove_field` but overwrites an existing field
(`*map.get_mut(field).unwrap() = value`); the `unwrap` on an absent field
is the FieldNotFound failure. -/
def mutate_field (token part field : Text) (value : Jval) (signer : Signer) :
    Except TamperError Text :=
  let parts := splitOnDot token
  if part = headerStr then
    match parts with
    | p0 :: p1 :: _ =>
        match part_to_map p0 with
        | some m =>
            if containsKey field m then
              .ok (signParts (map_to_part (setKey field value m)) p1 signer)
            else .error .fieldNotFound
        | none => .error .decodeError
    | _ => .error .decodeError
  else if part = payloadStr then
    match parts with
    | p0 :: p1 :: _ =>
        match part_to_map p1 with
        | some m =>
            if containsKey field m then
              .ok (signParts p0 (map_to_part (setKey field value m)) signer)
            else .error .fieldNotFound
        | none => .error .decodeError
    | _ => .error .decodeError
  else .error .unsupportedPart

/-! ## Fixture catalog models
The catalog generators call into the external `ucan` crate (builder,
encoder, CID computation), the external capability semantics module, and
the fixed seed identities.  Those collaborators are modelled from the
contracts stated in the design document; the catalog structure, scenario
inputs and tamper calls are transcribed from src/generators. -/
/-- Modelled from the spec: a `Capability` of the missing `capabilities`
module is a (resource, ability, caveat) triple (§3);
`EmailSemantics::parse` builds one. -/
structure Capability where
  resource : Text
  ability : Text
  caveat : Option Jval

def emailSemanticsParse (resource ability : Text) (caveat : Option Jval) : Capability :=
  ⟨resource, ability, caveat⟩

/-- `UcanOptions` (src/generators.rs) with its `Default`. -/
structure UcanOptions where
  capabilities : List Capability := []
  expiration : Option Nat := none
  not_before : Option Nat := none
  facts : List (Text × Jval) := []
  proofs : List Text := []
  add_nonce : Bool := false

/-- Modelled from the spec: the wire encoding of a capability set,
`{resource: {ability: [caveat]}}` with `[{}]` for a capability without
caveats; resources are collected into a sorted map. -/
def capsToJval (caps : List Capability) : Jval :=
  Jval.obj (caps.foldl (fun m c =>
    insertKey c.resource
      (Jval.obj [(c.ability, Jval.arr [c.caveat.getD (Jval.obj [])])]) m) [])

def ucvStr : Text := [48, 46, 49, 48, 46, 48]

/-- Modelled from the spec: the header map built by the external UCAN
builder, `{alg: "EdDSA", typ: "JWT"}` (§4.2). -/
def buildHeaderMap : List (Text × Jval) :=
  [(txt "alg", Jval.str (txt "EdDSA")), (txt "typ", Jval.str (txt "JWT"))]

/-- A serde `skip_serializing_if = "Option::is_none"` field: one map
entry when present, nothing when absent. -/
def optEntry {α : Type} (k : Text) (f : α → Jval) (o : Option α) : List (Text × Jval) :=
  match o with | none => [] | some x => [(k, f x)]

/-- A list-valued field omitted when the list is empty. -/
def listEntry {α : Type} (k : Text) (f : List α → Jval) (l : List α) : List (Text × Jval) :=
  match l with | [] => [] | x => [(k, f x)]

/-- Modelled from the spec: the payload map built by the external UCAN
builder (§4.2): all supplied fields, `nnc` only when nonce generation was
requested (the fresh random nonce is an explicit parameter here), `nbf`,
`fct` and `prf` omitted when unset, `exp` serialized as an explicit null
when absent; canonical sorted key order. -/
def buildPayloadMap (issuer : Signer) (aud : Text) (opts : UcanOptions) (nonce : Text) :
    List (Text × Jval) :=
  [(txt "aud", Jval.str aud), (txt "cap", capsToJval opts.capabilities),
    (txt "exp", match opts.expiration with | none => Jval.null | some n => Jval.num n)] ++
  listEntry (txt "fct") Jval.obj opts.facts ++
  [(txt "iss", Jval.str issuer.did)] ++
  optEntry (txt "nbf") (fun n => Jval.num (n : Int)) opts.not_before ++
  (if opts.add_nonce then [(txt "nnc", Jval.str nonce)] else []) ++
  listEntry (txt "prf") (fun l => Jval.arr (l.map Jval.str)) opts.proofs ++
  [(txt "ucv", Jval.str ucvStr)]

/-- Modelled from the spec: `Signable::sign` followed by `Ucan::encode`
(§4.2): encode both parts canonically, sign `header-part.payload-part`,
append the base64url signature part. -/
def buildToken (issuer : Signer) (aud : Text) (opts : UcanOptions) (nonce : Text) : Text :=
  signParts (map_to_part buildHeaderMap)
    (map_to_part (buildPayloadMap issuer aud opts nonce)) issuer

/-- Hash algorithm tags used by the generator (`cid::multihash::Code`). -/
inductive MultihashCode where
  | sha2_256
  | blake3_256
deriving DecidableEq

/-- Modelled from the spec: the external hasher contract (§6),
deterministic and distinct per algorithm tag even for identical input. -/
structure Hasher where
  hash : MultihashCode → List Nat → Text
  hash_code_distinct : ∀ c c2 bs, ¬c = c2 → ¬hash c bs = hash c2 bs

/-- `make_proof` (src/generators.rs): build and encode the proof token,
return its SHA2-256 content identifier together with the token. -/
def make_proof (hasher : Hasher) (issuer : Signer) (aud : Text) (opts : UcanOptions)
    (nonce : Text) : Text × Text :=
  let token := buildToken issuer aud opts nonce
  (hasher.hash .sha2_256 (utf8Encode token), token)

/-- The three fixed seed identities (src/identities.rs). -/
structure Identities where
  alice : Signer
  bob : Signer
  mallory : Signer

/-! ### Fixture assertions (src/generators/assertions.rs) -/
structure UcanHeaderAssertions where
  alg : Option Text
  typ : Option Text

structure UcanPayloadAssertions where
  ucv : Option Text
  iss : Option Text
  aud : Option Text
  exp : Option Nat
  nbf : Option Nat
  nnc : Option Text
  cap : Option Jval
  fct : Option Jval
  prf : Option (List Text)

structure UcanAssertions where
  header : UcanHeaderAssertions
  payload : UcanPayloadAssertions
  signature : List Nat

/-- The sentinel test from src/generators/assertions.rs: a `Some(86)`
expiration marks the `exp` assertion as "skip when serializing". -/
def is_skip_expiration_marker (v : Option Nat) : Bool := v == some 86

/-- Serialization shape of `UcanHeaderAssertions` under its serde
attributes: each field is skipped exactly when `None`. -/
def serUcanHeaderAssertions (h : UcanHeaderAssertions) : List (Text × Jval) :=
  optEntry (txt "alg") Jval.str h.alg ++
  optEntry (txt "typ") Jval.str h.typ

/-- Serialization shape of `UcanPayloadAssertions` under its serde
attributes: every field is skipped when `None`, except `exp`, which is
skipped exactly on the `Some(86)` marker and serialized as an explicit
`null` when `None`. -/
def serUcanPayloadAssertions (p : UcanPayloadAssertions) : List (Text × Jval) :=
  optEntry (txt "ucv") Jval.str p.ucv ++
  optEntry (txt "iss") Jval.str p.iss ++
  optEntry (txt "aud") Jval.str p.aud ++
  (if is_skip_expiration_marker p.exp then []
   else [(txt "exp", match p.exp with | none => Jval.null | some n => Jval.num n)]) ++
  optEntry (txt "nbf") (fun n => Jval.num (n : Int)) p.nbf ++
  optEntry (txt "nnc") Jval.str p.nnc ++
  optEntry (txt "cap") (fun j => j) p.cap ++
  optEntry (txt "fct") (fun j => j) p.fct ++
  optEntry (txt "prf") (fun l => Jval.arr (l.map Jval.str)) p.prf

/-- `ucan_to_assertions` (src/generators/assertions.rs), stated over the
semantic inputs of the built token. -/
def ucan_to_assertions (issuer : Signer) (aud : Text) (opts : UcanOptions) (nonce : Text) :
    UcanAssertions :=
  { header := { alg := some (txt "EdDSA"), typ := some (txt "JWT") }
    payload := {
      ucv := some ucvStr
      iss := some issuer.did
      aud := some aud
      exp := opts.expiration
      nbf := opts.not_before
      nnc := if opts.add_nonce then some nonce else none
      cap := some (capsToJval opts.capabilities)
      fct := match opts.facts with | [] => none | f => some (Jval.obj f)
      prf := match opts.proofs with | [] => none | l => some l }
    signature := issuer.sign (utf8Encode (map_to_part buildHeaderMap ++ 46 ::
      map_to_part (buildPayloadMap issuer aud opts nonce))) }

/-! ### The refute catalog (src/generators/refute.rs) -/
structure RefuteFixture where
  name : Text
  task : Text
  token : Text
  proofs : List (Text × Text)
  assertions : UcanAssertions
  errors : List Text

/-- `make_fixture` of src/generators/refute.rs. -/
def refute_make_fixture (name : Text) (issuer : Signer) (audience : Text)
    (opts : UcanOptions) (nonce : Text) (proofs : List (Text × Text))
    (errors : List Text) : RefuteFixture :=
  { name := name
    task := txt "refute"
    token := buildToken issuer audience opts nonce
    proofs := proofs
    assertions := ucan_to_assertions issuer audience opts nonce
    errors := errors }

/-- The Rust tamper helpers return the new token directly and panic on
failure; the catalog model extracts the value (the error case is
unreachable at every call site below). -/
def tamperOk (r : Except TamperError Text) : Text := r.toOption.getD []

def sendEmailAsAlice : Capability :=
  emailSemanticsParse (txt "mailto:alice@email.com") (txt "email/send") none

def sendEmailAsMarketing : Capability :=
  emailSemanticsParse (txt "mailto:marketing@email.com") (txt "email/send") none

def newsletterCaveat : Jval :=
  Jval.obj [(txt "templates", Jval.arr [Jval.str (txt "newsletter")])]

def newsletterMarketingCaveat : Jval :=
  Jval.obj [(txt "templates",
    Jval.arr [Jval.str (txt "newsletter"), Jval.str (txt "marketing")])]

def marketingCaveat : Jval :=
  Jval.obj [(txt "templates", Jval.arr [Jval.str (txt "marketing")])]

def expired (ids : Identities) (nonce : Text) : RefuteFixture :=
  refute_make_fixture (txt "UCAN has expired") ids.alice ids.bob.did
    { expiration := some 1 } nonce [] [txt "expired"]

def not_ready (ids : Identities) (nonce : Text) : RefuteFixture :=
  refute_make_fixture (txt "UCAN is not ready to be used") ids.alice ids.bob.did
    { not_before := some 9246211200 } nonce [] [txt "notReady"]

def expires_after_proofs (ids : Identities) (hasher : Hasher) (nonce : Text) : RefuteFixture :=
  let pr := make_proof hasher ids.alice ids.bob.did { expiration := some 9246211200 } nonce
  refute_make_fixture (txt "UCAN expires after proofs") ids.alice ids.bob.did
    { expiration := some 14069142000, proofs := [pr.1] } nonce [(pr.1, pr.2)]
    [txt "timeBoundsViolation"]

def ready_before_proofs (ids : Identities) (hasher : Hasher) (nonce : Text) : RefuteFixture :=
  let pr := make_proof hasher ids.alice ids.bob.did { not_before := some 2 } nonce
  refute_make_fixture (txt "UCAN ready before proofs") ids.alice ids.bob.did
    { not_before := some 1, proofs := [pr.1] } nonce [(pr.1, pr.2)]
    [txt "timeBoundsViolation"]

def missing_algorithm (ids : Identities) (nonce : Text) : RefuteFixture :=
  let fixture := refute_make_fixture (txt "UCAN header is missing alg field") ids.alice
    ids.bob.did {} nonce [] [txt "missingField"]
  { fixture with
      assertions := { fixture.assertions with
        header := { fixture.assertions.header with alg := none } }
      token := tamperOk (remove_field fixture.token headerStr (txt "alg") ids.alice) }

def missing_type (ids : Identities) (nonce : Text) : RefuteFixture :=
  let fixture := refute_make_fixture (txt "UCAN header is missing typ field") ids.alice
    ids.bob.did {} nonce [] [txt "missingField"]
  { fixture with
      assertions := { fixture.assertions with
        header := { fixture.assertions.header with typ := none } }
      token := tamperOk (remove_field fixture.token headerStr (txt "typ") ids.alice) }

def missing_version (ids : Identities) (nonce : Text) : RefuteFixture :=
  let fixture := refute_make_fixture (txt "UCAN payload is missing ucv field") ids.alice
    ids.bob.did {} nonce [] [txt "missingField"]
  { fixture with
      assertions := { fixture.assertions with
        payload := { fixture.assertions.payload with ucv := none } }
      token := tamperOk (remove_field fixture.token payloadStr (txt "ucv") ids.alice) }

def missing_issuer (ids : Identities) (nonce : Text) : RefuteFixture :=
  let fixture := refute_make_fixture (txt "UCAN payload is missing iss field") ids.alice
    ids.bob.did {} nonce [] [txt "missingField"]
  { fixture with
      assertions := { fixture.assertions with
        payload := { fixture.assertions.payload with iss := none } }
      token := tamperOk (remove_field fixture.token payloadStr (txt "iss") ids.alice) }

def missing_audience (ids : Identities) (nonce : Text) : RefuteFixture :=
  let fixture := refute_make_fixture (txt "UCAN payload is missing aud field") ids.alice
    ids.bob.did {} nonce [] [txt "missingField"]
  { fixture with
      assertions := { fixture.assertions with
        payload := { fixture.assertions.payload with aud := none } }
      token := tamperOk (remove_field fixture.token payloadStr (txt "aud") ids.alice) }

def missing_expiration (ids : Identities) (nonce : Text) : RefuteFixture :=
  let fixture := refute_make_fixture (txt "UCAN payload is missing exp field") ids.alice
    ids.bob.did {} nonce [] [txt "missingField"]
  { fixture with
      assertions := { fixture.assertions with
        payload := { fixture.assertions.payload with exp := some 86 } }
      token := tamperOk (remove_field fixture.token payloadStr (txt "exp") ids.alice) }

def missing_capabilities (ids : Identities) (nonce : Text) : RefuteFixture :=
  let fixture := refute_make_fixture (txt "UCAN payload is missing cap field") ids.alice
    ids.bob.did {} nonce [] [txt "missingField"]
  { fixture with
      assertions := { fixture.assertions with
        payload := { fixture.assertions.payload with cap := none } }
      token := tamperOk (remove_field fixture.token payloadStr (txt "cap") ids.alice) }

def invalid_algorithm (ids : Identities) (nonce : Text) : RefuteFixture :=
  let fixture := refute_make_fixture (txt "UCAN header alg field is not a string") ids.alice
    ids.bob.did {} nonce [] [txt "incorrectType"]
  { fixture with
      assertions := { fixture.assertions with
        header := { fixture.assertions.header with alg := none } }
      token := tamperOk (mutate_field fixture.token headerStr (txt "alg")
        (Jval.num 1) ids.alice) }

def invalid_type (ids : Identities) (nonce : Text) : RefuteFixture :=
  let fixture := refute_make_fixture (txt "UCAN header typ field is not a string") ids.alice
    ids.bob.did {} nonce [] [txt "incorrectType"]
  { fixture with
      assertions := { fixture.assertions with
        header := { fixture.assertions.header with typ := none } }
      token := tamperOk (mutate_field fixture.token headerStr (txt "typ")
        (Jval.num 1) ids.alice) }

def invalid_type_not_jwt (ids : Identities) (nonce : Text) : RefuteFixture :=
  let fixture := refute_make_fixture (txt "UCAN type is not JWT") ids.alice
    ids.bob.did {} nonce [] [txt "incorrectType"]
  { fixture with
      assertions := { fixture.assertions with
        header := { fixture.assertions.header with typ := none } }
      token := tamperOk (mutate_field fixture.token headerStr (txt "typ")
        (Jval.str (txt "NOT_JWT")) ids.alice) }

def invalid_version (ids : Identities) (nonce : Text) : RefuteFixture :=
  let fixture := refute_make_fixture (txt "UCAN payload ucv field is not a string") ids.alice
    ids.bob.did {} nonce [] [txt "incorrectType"]
  { fixture with
      assertions := { fixture.assertions with
        payload := { fixture.assertions.payload with ucv := none } }
      token := tamperOk (mutate_field fixture.token payloadStr (txt "ucv")
        (Jval.num 1) ids.alice) }

def invalid_version_not_semantic (ids : Identities) (nonce : Text) : RefuteFixture :=
  let fixture := refute_make_fixture
    (txt "UCAN payload ucv field is not semantically versioned") ids.alice
    ids.bob.did {} nonce [] [txt "incorrectType"]
  { fixture with
      assertions := { fixture.assertions with
        payload := { fixture.assertions.payload with ucv := none } }
      token := tamperOk (mutate_field fixture.token payloadStr (txt "ucv")
        (Jval.str (txt "0.10")) ids.alice) }

def invalid_issuer (ids : Identities) (nonce : Text) : RefuteFixture :=
  let fixture := refute_make_fixture (txt "UCAN payload iss field is not a DID") ids.alice
    ids.bob.did {} nonce [] [txt "incorrectType"]
  { fixture with
      assertions := { fixture.assertions with
        payload := { fixture.assertions.payload with iss := none } }
      token := tamperOk (mutate_field fixture.token payloadStr (txt "iss")
        (Jval.str (txt "z6Mkk89bC3JrVqKie71YEcc5M1SMVxuCgNx6zLZ8SYJsxALi")) ids.alice) }

def invalid_audience (ids : Identities) (nonce : Text) : RefuteFixture :=
  let fixture := refute_make_fixture (txt "UCAN payload aud field is not a DID") ids.alice
    ids.bob.did {} nonce [] [txt "incorrectType"]
  { fixture with
      assertions := { fixture.assertions with
        payload := { fixture.assertions.payload with aud := none } }
      token := tamperOk (mutate_field fixture.token payloadStr (txt "aud")
        (Jval.str (txt "z6MkffDZCkCTWreg8868fG1FGFogcJj5X6PY93pPcWDn9bob")) ids.alice) }

def invalid_not_before (ids : Identities) (nonce : Text) : RefuteFixture :=
  let fixture := refute_make_fixture (txt "UCAN payload nbf field is not a number") ids.alice
    ids.bob.did { not_before := some 1 } nonce [] [txt "incorrectType"]
  { fixture with
      assertions := { fixture.assertions with
        payload := { fixture.assertions.payload with nbf := none } }
      token := tamperOk (mutate_field fixture.token payloadStr (txt "nbf")
        (Jval.str (txt "1")) ids.alice) }

def invalid_expiration (ids : Identities) (nonce : Text) : RefuteFixture :=
  let fixture := refute_make_fixture (txt "UCAN payload exp field is not a number") ids.alice
    ids.bob.did { expiration := some 9246211200 } nonce [] [txt "incorrectType"]
  { fixture with
      assertions := { fixture.assertions with
        payload := { fixture.assertions.payload with exp := some 86 } }
      token := tamperOk (mutate_field fixture.token payloadStr (txt "exp")
        (Jval.str (txt "9246211200")) ids.alice) }

def invalid_nonce (ids : Identities) (nonce : Text) : RefuteFixture :=
  let fixture := refute_make_fixture (txt "UCAN payload nnc field is not a string") ids.alice
    ids.bob.did { add_nonce := true } nonce [] [txt "incorrectType"]
  { fixture with
      assertions := { fixture.assertions with
        payload := { fixture.assertions.payload with nnc := none } }
      token := tamperOk (mutate_field fixture.token payloadStr (txt "nnc")
        (Jval.num 1) ids.alice) }

def invalid_facts (ids : Identities) (nonce : Text) : RefuteFixture :=
  let fixture := refute_make_fixture (txt "UCAN payload fct field is not a JSON object")
    ids.alice ids.bob.did
    { facts := [(txt "challenge", Jval.str (txt "abcdef"))] } nonce [] [txt "incorrectType"]
  { fixture with
      assertions := { fixture.assertions with
        payload := { fixture.assertions.payload with fct := none } }
      token := tamperOk (mutate_field fixture.token payloadStr (txt "fct")
        Jval.null ids.alice) }

def invalid_capabilities (ids : Identities) (nonce : Text) : RefuteFixture :=
  let fixture := refute_make_fixture (txt "UCAN payload cap field is not a JSON object")
    ids.alice ids.bob.did { capabilities := [sendEmailAsAlice] } nonce []
    [txt "incorrectType"]
  { fixture with
      assertions := { fixture.assertions with
        payload := { fixture.assertions.payload with cap := none } }
      token := tamperOk (mutate_field fixture.token payloadStr (txt "cap")
        Jval.null ids.alice) }

def invalid_capabilities_ability (ids : Identities) (nonce : Text) : RefuteFixture :=
  let fixture := refute_make_fixture
    (txt "UCAN payload cap field ability for resource is not a JSON object")
    ids.alice ids.bob.did { capabilities := [sendEmailAsAlice] } nonce []
    [txt "incorrectType"]
  { fixture with
      assertions := { fixture.assertions with
        payload := { fixture.assertions.payload with cap := none } }
      token := tamperOk (mutate_field fixture.token payloadStr (txt "cap")
        (Jval.obj [(txt "mailto:alice@email.com", Jval.null)]) ids.alice) }

def invalid_capabilities_caveats (ids : Identities) (nonce : Text) : RefuteFixture :=
  let fixture := refute_make_fixture (txt "UCAN payload cap field caveat is not an array")
    ids.alice ids.bob.did { capabilities := [sendEmailAsAlice] } nonce []
    [txt "incorrectType"]
  { fixture with
      assertions := { fixture.assertions with
        payload := { fixture.assertions.payload with cap := none } }
      token := tamperOk (mutate_field fixture.token payloadStr (txt "cap")
        (Jval.obj [(txt "mailto:alice@email.com",
          Jval.obj [(txt "email/send", Jval.null)])]) ids.alice) }

def invalid_capabilities_caveats_empty (ids : Identities) (nonce : Text) : RefuteFixture :=
  let fixture := refute_make_fixture (txt "UCAN payload cap field caveat is an empty array")
    ids.alice ids.bob.did { capabilities := [sendEmailAsAlice] } nonce []
    [txt "incorrectType"]
  { fixture with
      assertions := { fixture.assertions with
        payload := { fixture.assertions.payload with cap := none } }
      token := tamperOk (mutate_field fixture.token payloadStr (txt "cap")
        (Jval.obj [(txt "mailto:alice@email.com",
          Jval.obj [(txt "email/send", Jval.arr [])])]) ids.alice) }

def invalid_proofs (ids : Identities) (nonce : Text) : RefuteFixture :=
  let fixture := refute_make_fixture (txt "UCAN payload prf field is not an array")
    ids.alice ids.bob.did { proofs := [txt "placeholder"] } nonce [] [txt "incorrectType"]
  { fixture with
      assertions := { fixture.assertions with
        payload := { fixture.assertions.payload with prf := none } }
      token := tamperOk (mutate_field fixture.token payloadStr (txt "prf")
        (Jval.obj []) ids.alice) }

def invalid_proof_cids (ids : Identities) (nonce : Text) : RefuteFixture :=
  let fixture := refute_make_fixture (txt "UCAN payload prf field is not an array of CIDs")
    ids.alice ids.bob.did { proofs := [txt "placeholder"] } nonce [] [txt "incorrectProofs"]
  { fixture with
      assertions := { fixture.assertions with
        payload := { fixture.assertions.payload with prf := none } }
      token := tamperOk (mutate_field fixture.token payloadStr (txt "prf")
        (Jval.arr [Jval.str (txt "we"), Jval.str (txt "prove"), Jval.str (txt "nothing")])
        ids.alice) }

/-- The DID literal written into the mutated `iss` field by
src/generators/refute.rs (lines 886-891). -/
def mutatedIssDid : Text := txt "did:key:z6MktafZTREjJkvV5mfJxcLpNBoVPwDLhTuMg9ng7dY4zMAL"

def issuer_does_not_match_proof_audience (ids : Identities) (hasher : Hasher)
    (nonce : Text) : RefuteFixture :=
  let pr := make_proof hasher ids.alice ids.bob.did {} nonce
  let fixture := refute_make_fixture (txt "UCAN issuer does not match proof audience")
    ids.bob ids.mallory.did { proofs := [pr.1] } nonce [(pr.1, pr.2)]
    [txt "invalidDelegation"]
  { fixture with
      assertions := { fixture.assertions with
        payload := { fixture.assertions.payload with iss := none } }
      token := tamperOk (mutate_field fixture.token payloadStr (txt "iss")
        (Jval.str mutatedIssDid) ids.alice) }

def claimed_capability_not_delegated (ids : Identities) (hasher : Hasher)
    (nonce : Text) : RefuteFixture :=
  let pr := make_proof hasher ids.alice ids.bob.did {} nonce
  let fixture := refute_make_fixture
    (txt "UCAN claims a capability that has not been delegated")
    ids.bob ids.mallory.did { capabilities := [sendEmailAsAlice], proofs := [pr.1] } nonce
    [(pr.1, pr.2)] [txt "invalidDelegation"]
  { fixture with
      assertions := { fixture.assertions with
        payload := { fixture.assertions.payload with cap := none } } }

def caveats_escalate_with_new_caveat (ids : Identities) (hasher : Hasher)
    (nonce : Text) : RefuteFixture :=
  let pr := make_proof hasher ids.alice ids.bob.did
    { capabilities := [emailSemanticsParse (txt "mailto:alice@email.com")
        (txt "email/send") (some newsletterCaveat)] } nonce
  let fixture := refute_make_fixture (txt "UCAN escalates by adding a new caveat")
    ids.bob ids.mallory.did
    { capabilities := [emailSemanticsParse (txt "mailto:alice@email.com")
        (txt "email/send") (some newsletterMarketingCaveat)], proofs := [pr.1] } nonce
    [(pr.1, pr.2)] [txt "invalidDelegation"]
  { fixture with
      assertions := { fixture.assertions with
        payload := { fixture.assertions.payload with cap := none } } }

def caveats_escalate_to_no_caveats (ids : Identities) (hasher : Hasher)
    (nonce : Text) : RefuteFixture :=
  let pr := make_proof hasher ids.alice ids.bob.did
    { capabilities := [emailSemanticsParse (txt "mailto:alice@email.com")
        (txt "email/send") (some newsletterCaveat)] } nonce
  let fixture := refute_make_fixture (txt "UCAN escalates to no caveats")
    ids.bob ids.mallory.did
    { capabilities := [sendEmailAsAlice], proofs := [pr.1] } nonce
    [(pr.1, pr.2)] [txt "invalidDelegation"]
  { fixture with
      assertions := { fixture.assertions with
        payload := { fixture.assertions.payload with cap := none } } }

def caveats_escalate_with_different_caveat (ids : Identities) (hasher : Hasher)
    (nonce : Text) : RefuteFixture :=
  let pr := make_proof hasher ids.alice ids.bob.did
    { capabilities := [emailSemanticsParse (txt "mailto:alice@email.com")
        (txt "email/send") (some newsletterCaveat)] } nonce
  let fixture := refute_make_fixture (txt "UCAN escalates by adding a different caveat")
    ids.bob ids.mallory.did
    { capabilities := [emailSemanticsParse (txt "mailto:alice@email.com")
        (txt "email/send") (some marketingCaveat)], proofs := [pr.1] } nonce
    [(pr.1, pr.2)] [txt "invalidDelegation"]
  { fixture with
      assertions := { fixture.assertions with
        payload := { fixture.assertions.payload with cap := none } } }

/-- `refute::generate` (src/generators/refute.rs): the refute catalog in
its fixed emission order. -/
def refuteFixtures (ids : Identities) (hasher : Hasher) (nonce : Text) :
    List RefuteFixture :=
  [expired ids nonce,
   not_ready ids nonce,
   expires_after_proofs ids hasher nonce,
   ready_before_proofs ids hasher nonce,
   missing_type ids nonce,
   missing_algorithm ids nonce,
   missing_version ids nonce,
   missing_issuer ids nonce,
   missing_audience ids nonce,
   missing_expiration ids nonce,
   missing_capabilities ids nonce,
   invalid_algorithm ids nonce,
   invalid_type ids nonce,
   invalid_type_not_jwt ids nonce,
   invalid_version ids nonce,
   invalid_version_not_semantic ids nonce,
   invalid_issuer ids nonce,
   invalid_audience ids nonce,
   invalid_not_before ids nonce,
   invalid_expiration ids nonce,
   invalid_nonce ids nonce,
   invalid_facts ids nonce,
   invalid_capabilities ids nonce,
   invalid_capabilities_ability ids nonce,
   invalid_capabilities_caveats ids nonce,
   invalid_capabilities_caveats_empty ids nonce,
   invalid_proofs ids nonce,
   invalid_proof_cids ids nonce,
   issuer_does_not_match_proof_audience ids hasher nonce,
   claimed_capability_not_delegated ids hasher nonce,
   caveats_escalate_with_new_caveat ids hasher nonce,
   caveats_escalate_to_no_caveats ids hasher nonce,
   caveats_escalate_with_different_caveat ids hasher nonce]

/-! ### The toCID catalog (src/generators/to_cid.rs) -/
structure ToCIDFixture where
  name : Text
  task : Text
  token : Text
  hasher : Text
  cid : Text

/-- The hasher-string dispatch of src/generators/to_cid.rs lines 79-84:
unknown strings silently fall through to SHA2-256. -/
def hasherCode (h : Text) : MultihashCode :=
  if h = txt "SHA2-256" then .sha2_256
  else if h = txt "BLAKE3-256" then .blake3_256
  else .sha2_256

/-- `make_fixture` of src/generators/to_cid.rs: build a token, record the
requested hasher string verbatim, compute the CID of the encoded token
under the dispatched hash code. -/
def toCid_make_fixture (hash : Hasher) (name : Text) (issuer : Signer) (audience : Text)
    (hstr : Text) (opts : UcanOptions) (nonce : Text) : ToCIDFixture :=
  let token := buildToken issuer audience opts nonce
  { name := name
    task := txt "toCID"
    token := token
    hasher := hstr
    cid := hash.hash (hasherCode hstr) (utf8Encode token) }

def computes_cid_with_sha2_256_hasher (ids : Identities) (hash : Hasher)
    (nonce : Text) : ToCIDFixture :=
  toCid_make_fixture hash (txt "Compute CID for token using SHA2-256 hasher")
    ids.alice ids.bob.did (txt "SHA2-256") {} nonce

def computes_cid_with_blake3_256_hasher (ids : Identities) (hash : Hasher)
    (nonce : Text) : ToCIDFixture :=
  toCid_make_fixture hash (txt "Compute CID for token using BLAKE3-256 hasher")
    ids.alice ids.bob.did (txt "BLAKE3-256") {} nonce

/-- `to_cid::generate`: exactly two fixtures, SHA2-256 then BLAKE3-256. -/
def toCidFixtures (ids : Identities) (hash : Hasher) (nonce : Text) : List ToCIDFixture :=
  [computes_cid_with_sha2_256_hasher ids hash nonce,
   computes_cid_with_blake3_256_hasher ids hash nonce]

/-! ### Concrete model instances -/
/-- A concrete signer family for instantiating the external-crypto
contract: distinct keys produce distinct signatures. -/
def testSigner (key : Nat) (d : Text) : Signer where
  sign := fun _ => key % 256 :: List.replicate 63 0
  verify := fun _ sg => sg == key % 256 :: List.replicate 63 0
  did := d
  verify_sign := by intro bs; simp
  sign_bytes_lt := by
    intro bs b hb
    rcases List.mem_cons.mp hb with rfl | hb2
    · omega
    · rw [List.eq_of_mem_replicate hb2]; omega

/-- Modelled from the spec: alice's DID, the deterministic derivation
from her fixed base64 seed (src/identities.rs line 20). -/
def aliceDid : Text := txt "did:key:z6Mkk89bC3JrVqKie71YEcc5M1SMVxuCgNx6zLZ8SYJsxALi"

/-- Modelled from the spec: bob's DID, derived from his fixed seed
(src/identities.rs line 25). -/
def bobDid : Text := txt "did:key:z6MkffDZCkCTWreg8868fG1FGFogcJj5X6PY93pPcWDn9bob"

/-- Modelled from the spec: mallory's DID, derived from her fixed seed
(src/identities.rs line 26). -/
def malloryDid : Text := txt "did:key:z6MktafZTREjJkvV5mfJxcLpNBoVPwDLhTuMg9ng7dY4zMAL"

/-- `Identities::new` (src/identities.rs) under the concrete crypto
model: three distinct keypairs with their derived DIDs. -/
def modelIdentities : Identities :=
  ⟨testSigner 1 aliceDid, testSigner 2 bobDid, testSigner 3 malloryDid⟩

/-- A concrete hasher satisfying the spec contract: the algorithm tag is
prefixed onto the digest, so different tags give different identifiers. -/
def modelHasher : Hasher where
  hash := fun c bs => (match c with | .sha2_256 => 0 | .blake3_256 => 1) :: bs
  hash_code_distinct := by
    intro c c2 bs hne heq
    cases c <;> cases c2 <;> simp_all


theorem b64CharDec_b64Char : ∀ n < 64, b64CharDec (b64Char n) = some n := by decide

theorem b64Char_ne_dot (n : Nat) : b64Char n ≠ 46 := by
  unfold b64Char
  split_ifs <;> omega

theorem b64Char_valid (n : Nat) : validCpB (b64Char n) = true := by
  unfold b64Char validCpB
  split_ifs <;> (simp only [Bool.or_eq_true, decide_eq_true_eq, Bool.and_eq_true]; omega)

theorem base64urlEncode_ne_dot (bs : List Nat) : ∀ c ∈ base64urlEncode bs, c ≠ 46 := by
  induction bs using base64urlEncode.induct with
  | case1 => intro c hc; simp [base64urlEncode] at hc
  | case2 b1 =>
      intro c hc
      simp [base64urlEncode] at hc
      rcases hc with h | h <;> (subst h; exact b64Char_ne_dot _)
  | case3 b1 b2 =>
      intro c hc
      simp [base64urlEncode] at hc
      rcases hc with h | h | h <;> (subst h; exact b64Char_ne_dot _)
  | case4 b1 b2 b3 rest ih =>
      intro c hc
      simp [base64urlEncode] at hc
      rcases hc with h | h | h | h | h
      · subst h; exact b64Char_ne_dot _
      · subst h; exact b64Char_ne_dot _
      · subst h; exact b64Char_ne_dot _
      · subst h; exact b64Char_ne_dot _
      · exact ih c h

theorem base64urlDecode_encode (bs : List Nat) (h : ∀ b ∈ bs, b < 256) :
    base64urlDecode (base64urlEncode bs) = some bs := by
  induction bs using base64urlEncode.induct with
  | case1 => rfl
  | case2 b1 =>
      have hb1 : b1 < 256 := h b1 (by simp)
      have h1 : b1 / 4 < 64 := by omega
      have h2 : b1 % 4 * 16 < 64 := by omega
      simp only [base64urlEncode, base64urlDecode,
        b64CharDec_b64Char _ h1, b64CharDec_b64Char _ h2, Option.bind_eq_bind, Option.some_bind]
      have : b1 % 4 * 16 % 16 = 0 := by omega
      simp [this]
      omega
  | case3 b1 b2 =>
      have hb1 : b1 < 256 := h b1 (by simp)
      have hb2 : b2 < 256 := h b2 (by simp)
      have h1 : b1 / 4 < 64 := by omega
      have h2 : b1 % 4 * 16 + b2 / 16 < 64 := by omega
      have h3 : b2 % 16 * 4 < 64 := by omega
      simp only [base64urlEncode, base64urlDecode,
        b64CharDec_b64Char _ h1, b64CharDec_b64Char _ h2, b64CharDec_b64Char _ h3,
        Option.bind_eq_bind, Option.some_bind]
      have : b2 % 16 * 4 % 4 = 0 := by omega
      simp [this]
      constructor <;> omega
  | case4 b1 b2 b3 rest ih =>
      have hb1 : b1 < 256 := h b1 (by simp)
      have hb2 : b2 < 256 := h b2 (by simp)
      have hb3 : b3 < 256 := h b3 (by simp)
      have hrest : ∀ b ∈ rest, b < 256 := fun b hb => h b (by simp [hb])
      have h1 : b1 / 4 < 64 := by omega
      have h2 : b1 % 4 * 16 + b2 / 16 < 64 := by omega
      have h3 : b2 % 16 * 4 + b3 / 64 < 64 := by omega
      have h4 : b3 % 64 < 64 := by omega
      show base64urlDecode (b64Char (b1 / 4) :: b64Char (b1 % 4 * 16 + b2 / 16) ::
        b64Char (b2 % 16 * 4 + b3 / 64) :: b64Char (b3 % 64) :: base64urlEncode rest) = _
      simp only [base64urlDecode, b64CharDec_b64Char _ h1, b64CharDec_b64Char _ h2,
        b64CharDec_b64Char _ h3, b64CharDec_b64Char _ h4, Option.bind_eq_bind, Option.some_bind,
        ih hrest]
      simp only [Option.some.injEq, List.cons.injEq]
      refine ⟨by omega, by omega, by omega, trivial⟩

theorem utf8EncodeCp_lt_256 (n : Nat) (h : n < 0x110000) : ∀ b ∈ utf8EncodeCp n, b < 256 := by
  intro b hb
  unfold utf8EncodeCp at hb
  split_ifs at hb <;> simp at hb <;> omega

theorem utf8Encode_lt_256 (t : Text) (h : ∀ c ∈ t, validCpB c = true) :
    ∀ b ∈ utf8Encode t, b < 256 := by
  intro b hb
  unfold utf8Encode at hb
  simp only [List.mem_flatten, List.mem_map] at hb
  obtain ⟨l, ⟨c, hc, rfl⟩, hbl⟩ := hb
  have := h c hc
  unfold validCpB at this
  simp only [Bool.or_eq_true, decide_eq_true_eq, Bool.and_eq_true] at this
  exact utf8EncodeCp_lt_256 c (by omega) b hbl

theorem utf8Decode_encodeCp (n : Nat) (h : validCpB n = true) (rest : List Nat) :
    utf8Decode (utf8EncodeCp n ++ rest) = (utf8Decode rest).map (fun t => n :: t) := by
  unfold validCpB at h
  simp only [Bool.or_eq_true, decide_eq_true_eq, Bool.and_eq_true] at h
  unfold utf8EncodeCp
  split_ifs with h1 h2 h3
  · have ha : isAscii n = true := by simp only [isAscii, decide_eq_true_eq]; omega
    match rest with
    | [] => simp [utf8Decode, ha]
    | [r1] => simp [utf8Decode, ha]
    | [r1, r2] => simp [utf8Decode, ha]
    | r1 :: r2 :: r3 :: rs => simp [utf8Decode, ha]
  · have ha : isAscii (192 + n / 64) = false := by
      simp only [isAscii, decide_eq_false_iff_not]; omega
    have ht : (isTwo (192 + n / 64) && contB (128 + n % 64)) = true := by
      simp only [isTwo, contB, Bool.and_eq_true, decide_eq_true_eq]; omega
    have hcp : cp2 (192 + n / 64) (128 + n % 64) = n := by unfold cp2; omega
    match rest with
    | [] => simp [utf8Decode, ha, ht, hcp]
    | [r1] => simp [utf8Decode, ha, ht, hcp]
    | r1 :: r2 :: rs => simp [utf8Decode, ha, ht, hcp]
  · have ha : isAscii (224 + n / 4096) = false := by
      simp only [isAscii, decide_eq_false_iff_not]; omega
    have ht : (isTwo (224 + n / 4096) && contB (128 + n / 64 % 64)) = false := by
      simp only [isTwo, contB, Bool.and_eq_false_iff, decide_eq_false_iff_not]
      left; omega
    have h3b : (isThree (224 + n / 4096) &&
        chk3 (224 + n / 4096) (128 + n / 64 % 64) (128 + n % 64)) = true := by
      simp only [isThree, chk3, contB, Bool.and_eq_true, Bool.or_eq_true, bne_iff_ne,
        ne_eq, decide_eq_true_eq, Bool.not_eq_true]
      omega
    have hcp : cp3 (224 + n / 4096) (128 + n / 64 % 64) (128 + n % 64) = n := by
      unfold cp3; omega
    match rest with
    | [] => simp [utf8Decode, ha, ht, h3b, hcp]
    | [r1] => simp [utf8Decode, ha, ht, h3b, hcp]
    | r1 :: r2 :: rs => simp [utf8Decode, ha, ht, h3b, hcp]
  · have ha : isAscii (240 + n / 262144) = false := by
      simp only [isAscii, decide_eq_false_iff_not]; omega
    have ht : (isTwo (240 + n / 262144) && contB (128 + n / 4096 % 64)) = false := by
      simp only [isTwo, contB, Bool.and_eq_false_iff, decide_eq_false_iff_not]
      left; omega
    have h3b : (isThree (240 + n / 262144) &&
        chk3 (240 + n / 262144) (128 + n / 4096 % 64) (128 + n / 64 % 64)) = false := by
      simp only [isThree, chk3, contB, Bool.and_eq_false_iff, decide_eq_false_iff_not]
      omega
    have h4b : (isFour (240 + n / 262144) &&
        chk4 (240 + n / 262144) (128 + n / 4096 % 64) (128 + n / 64 % 64) (128 + n % 64))
          = true := by
      simp only [isFour, chk4, contB, Bool.and_eq_true, Bool.or_eq_true, bne_iff_ne,
        ne_eq, decide_eq_true_eq, Bool.not_eq_true]
      omega
    have hcp : cp4 (240 + n / 262144) (128 + n / 4096 % 64) (128 + n / 64 % 64)
        (128 + n % 64) = n := by
      unfold cp4; omega
    match rest with
    | [] => simp [utf8Decode, ha, ht, h3b, h4b, hcp]
    | r1 :: rs => simp [utf8Decode, ha, ht, h3b, h4b, hcp]

theorem utf8Decode_encode (t : Text) (h : ∀ c ∈ t, validCpB c = true) :
    utf8Decode (utf8Encode t) = some t := by
  induction t with
  | nil => rfl
  | cons c cs ih =>
      have he : utf8Encode (c :: cs) = utf8EncodeCp c ++ utf8Encode cs := by
        simp [utf8Encode]
      rw [he, utf8Decode_encodeCp c (h c (by simp)), ih (fun x hx => h x (by simp [hx]))]
      rfl

/-! ### Order lemmas for map keys -/
theorem textLt_irrefl (a : Text) : textLt a a = false := by
  induction a with
  | nil => rfl
  | cons c cs ih => simp [textLt, ih]

theorem textLt_asymm (a b : Text) (h : textLt a b = true) : textLt b a = false := by
  induction a generalizing b with
  | nil =>
      cases b with
      | nil => simp [textLt] at h
      | cons c cs => rfl
  | cons c cs ih =>
      cases b with
      | nil => simp [textLt] at h
      | cons d ds =>
          simp only [textLt] at h ⊢
          rcases Nat.lt_trichotomy c d with hcd | hcd | hcd
          · simp [hcd, Nat.lt_asymm hcd, Nat.ne_of_gt hcd]
          · subst hcd
            simp only [lt_irrefl, if_false] at h ⊢
            exact ih ds h
          · simp [hcd, Nat.lt_asymm hcd] at h

theorem textLt_ne (a b : Text) (h : textLt a b = true) : a ≠ b := by
  intro he
  subst he
  rw [textLt_irrefl] at h
  exact Bool.false_ne_true h

theorem textLt_trans (a b c : Text) (hab : textLt a b = true) (hbc : textLt b c = true) :
    textLt a c = true := by
  induction a generalizing b c with
  | nil =>
      cases c with
      | nil =>
          cases b with
          | nil => exact hab
          | cons d ds => simp [textLt] at hbc
      | cons e es => rfl
  | cons x xs ih =>
      cases b with
      | nil => simp [textLt] at hab
      | cons y ys =>
          cases c with
          | nil => simp [textLt] at hbc
          | cons z zs =>
              simp only [textLt] at hab hbc ⊢
              rcases Nat.lt_trichotomy x y with hxy | hxy | hxy
              · rcases Nat.lt_trichotomy y z with hyz | hyz | hyz
                · simp [Nat.lt_trans hxy hyz]
                · subst hyz; simp [hxy]
                · simp [hyz, Nat.lt_asymm hyz] at hbc
              · subst hxy
                simp only [lt_irrefl, if_false] at hab
                rcases Nat.lt_trichotomy x z with hyz | hyz | hyz
                · simp [hyz]
                · subst hyz
                  simp only [lt_irrefl, if_false] at hbc ⊢
                  exact ih ys zs hab hbc
                · simp [hyz, Nat.lt_asymm hyz] at hbc
              · simp [hxy, Nat.lt_asymm hxy] at hab

/-- In a strictly sorted pair list, every earlier key is below a later key. -/
theorem keysSorted_head_lt (k : Text) (v : Jval) (rest : List (Text × Jval))
    (h : keysSorted ((k, v) :: rest) = true) :
    ∀ kv ∈ rest, textLt k kv.1 = true := by
  induction rest generalizing k v with
  | nil => intro kv hkv; simp at hkv
  | cons kv2 rest2 ih =>
      intro kv hkv
      obtain ⟨k2, v2⟩ := kv2
      simp only [keysSorted, Bool.and_eq_true] at h
      rcases List.mem_cons.mp hkv with he | hm
      · subst he; exact h.1
      · exact textLt_trans _ _ _ h.1 (ih k2 v2 h.2 kv hm)

theorem keysSorted_tail (kv : Text × Jval) (rest : List (Text × Jval))
    (h : keysSorted (kv :: rest) = true) : keysSorted rest = true := by
  cases rest with
  | nil => rfl
  | cons kv2 rest2 =>
      obtain ⟨k, v⟩ := kv
      obtain ⟨k2, v2⟩ := kv2
      simp only [keysSorted, Bool.and_eq_true] at h
      exact h.2

theorem keysSorted_drop (l1 l2 : List (Text × Jval)) (h : keysSorted (l1 ++ l2) = true) :
    keysSorted l2 = true := by
  induction l1 with
  | nil => simpa using h
  | cons a as ih => exact ih (keysSorted_tail a _ (by simpa using h))

/-- Inserting a key greater than everything in the map appends it. -/
theorem insertKey_append (k : Text) (v : Jval) (m : List (Text × Jval))
    (h : ∀ kv ∈ m, textLt kv.1 k = true) :
    insertKey k v m = m ++ [(k, v)] := by
  induction m with
  | nil => rfl
  | cons kv rest ih =>
      obtain ⟨k1, v1⟩ := kv
      have h1 : textLt k1 k = true := h (k1, v1) (by simp)
      simp only [insertKey, textLt_asymm _ _ h1, Bool.false_eq_true, if_false]
      rw [if_neg (Ne.symm (textLt_ne _ _ h1)), ih (fun kv hkv => h kv (by simp [hkv]))]
      rfl

theorem foldIns_go (kvs acc : List (Text × Jval)) (h : keysSorted (acc ++ kvs) = true) :
    kvs.foldl (fun m kv => insertKey kv.1 kv.2 m) acc = acc ++ kvs := by
  induction kvs generalizing acc with
  | nil => simp
  | cons kv rest ih =>
      obtain ⟨k, v⟩ := kv
      have hall : ∀ kv2 ∈ acc, textLt kv2.1 k = true := by
        intro kv2 hkv2
        obtain ⟨l1, l2, rfl⟩ := List.append_of_mem hkv2
        have hs : keysSorted ((kv2 :: l2) ++ (k, v) :: rest) = true :=
          keysSorted_drop l1 _ (by simpa using h)
        obtain ⟨kk, vv⟩ := kv2
        exact keysSorted_head_lt kk vv _ (by simpa using hs) (k, v) (by simp)
      simp only [List.foldl_cons]
      rw [insertKey_append k v acc hall, ih]
      · simp
      · simpa using h

/-- Re-inserting the fields of a sorted map in order reproduces it:
`serde_json` deserialization into a `BTreeMap` is left inverse to
serialization at the map level. -/
theorem foldIns_sorted (kvs : List (Text × Jval)) (h : keysSorted kvs = true) :
    foldIns kvs = kvs := by
  unfold foldIns
  simpa using foldIns_go kvs [] (by simpa using h)

theorem digitsChars_eq (n : Nat) : digitsChars n = (natDigits n).map (fun d => 48 + d) := by
  induction n using natDigits.induct with
  | case1 n h => rw [digitsChars, natDigits, dif_pos h, dif_pos h]; rfl
  | case2 n h ih =>
      rw [digitsChars, natDigits, dif_neg h, dif_neg h, ih]
      simp

theorem natDigits_lt_10 (n : Nat) : ∀ d ∈ natDigits n, d < 10 := by
  induction n using natDigits.induct with
  | case1 n h => rw [natDigits, dif_pos h]; simpa using h
  | case2 n h ih =>
      rw [natDigits, dif_neg h]
      simp only [List.mem_append, List.mem_singleton]
      rintro d (hd | rfl)
      · exact ih d hd
      · omega

theorem digitsToNat_append (l : List Nat) (x : Nat) :
    digitsToNat (l ++ [x]) = digitsToNat l * 10 + x := by
  unfold digitsToNat
  rw [List.foldl_append]
  rfl

theorem digitsToNat_natDigits (n : Nat) : digitsToNat (natDigits n) = n := by
  induction n using natDigits.induct with
  | case1 n h => rw [natDigits, dif_pos h]; simp [digitsToNat]
  | case2 n h ih =>
      rw [natDigits, dif_neg h, digitsToNat_append, ih]
      omega

theorem natDigits_ne_nil (n : Nat) : natDigits n ≠ [] := by
  rw [natDigits]
  split <;> simp

theorem natDigits_head_pos (n : Nat) (hn : 1 ≤ n) :
    ∀ d ds, natDigits n = d :: ds → 1 ≤ d := by
  induction n using natDigits.induct with
  | case1 n h =>
      intro d ds he
      rw [natDigits, dif_pos h] at he
      simp only [List.cons.injEq] at he
      omega
  | case2 n h ih =>
      intro d ds he
      rw [natDigits, dif_neg h] at he
      obtain ⟨d2, ds2, he2⟩ : ∃ d2 ds2, natDigits (n / 10) = d2 :: ds2 := by
        cases hnd : natDigits (n / 10) with
        | nil => exact absurd hnd (natDigits_ne_nil _)
        | cons a b => exact ⟨a, b, rfl⟩
      rw [he2] at he
      simp only [List.cons_append, List.cons.injEq] at he
      obtain ⟨rfl, -⟩ := he
      exact ih (by omega) _ ds2 he2

theorem parseDigits_exact (ds : List Nat) (rest : Text) (hd : ∀ d ∈ ds, d < 10)
    (hrest : noDigitHead rest = true) :
    parseDigits (ds.map (fun d => 48 + d) ++ rest) = (ds, rest) := by
  induction ds with
  | nil =>
      cases rest with
      | nil => rfl
      | cons c cs =>
          simp only [noDigitHead, Bool.not_eq_true'] at hrest
          simp [parseDigits, hrest]
  | cons d ds ih =>
      have hd10 : d < 10 := hd d (by simp)
      have hdig : isDigit (48 + d) = true := by
        simp only [isDigit, Bool.and_eq_true, decide_eq_true_eq]
        omega
      have ih2 := ih (fun x hx => hd x (by simp [hx]))
      simp only [List.map_cons, List.cons_append, parseDigits, hdig, if_true]
      simp only [List.append_eq] at ih2 ⊢
      rw [ih2]
      simp only [Prod.mk.injEq, List.cons.injEq]
      exact ⟨⟨by omega, trivial⟩, trivial⟩

theorem parseNum_serNum (i : Int) (rest : Text)
    (hnd : noDigitHead rest = true) (hnt : numTail rest = false) :
    parseNum (serNum i ++ rest) = some (i, rest) := by
  obtain ⟨d, ds, hds⟩ : ∃ d ds, natDigits i.natAbs = d :: ds := by
    cases hnd2 : natDigits i.natAbs with
    | nil => exact absurd hnd2 (natDigits_ne_nil _)
    | cons a b => exact ⟨a, b, rfl⟩
  have hd10 : ∀ x ∈ natDigits i.natAbs, x < 10 := natDigits_lt_10 _
  have hnolead : ¬(d = 0 ∧ ds ≠ []) := by
    rintro ⟨rfl, hne⟩
    cases ds with
    | nil => exact hne rfl
    | cons a b =>
        have h1 : 1 ≤ i.natAbs := by
          by_contra hc
          have h0 : i.natAbs = 0 := by omega
          rw [h0, natDigits, dif_pos (by omega)] at hds
          simp only [List.cons.injEq] at hds
          exact List.cons_ne_nil a b hds.2.symm
        have := natDigits_head_pos i.natAbs h1 0 (a :: b) hds
        omega
  have hmap : parseDigits ((natDigits i.natAbs).map (fun d => 48 + d) ++ rest)
      = (d :: ds, rest) := by
    rw [parseDigits_exact _ _ hd10 hnd, hds]
  have hval : (digitsToNat (d :: ds) : Int) = (i.natAbs : Int) := by
    rw [← hds, digitsToNat_natDigits]
  by_cases hneg : i < 0
  · rw [serNum, if_pos hneg, digitsChars_eq, List.cons_append]
    simp only [parseNum, if_pos (rfl : (45 : Nat) = 45)]
    simp only [List.append_eq] at hmap ⊢
    rw [hmap]
    simp only [if_neg hnolead, hnt, Bool.false_eq_true, if_false, Option.some.injEq,
      Prod.mk.injEq]
    rw [if_pos trivial]
    simp only [Option.some.injEq, Prod.mk.injEq]
    refine ⟨by rw [hval]; omega, by first | rfl | trivial⟩
  · rw [serNum, if_neg hneg, digitsChars_eq, hds]
    simp only [List.map_cons, List.cons_append]
    have h45 : ¬(48 + d = 45) := by omega
    simp only [parseNum, if_neg h45]
    rw [show (48 + d) :: (List.map (fun d => 48 + d) ds ++ rest)
        = (natDigits i.natAbs).map (fun d => 48 + d) ++ rest by rw [hds]; simp]
    simp only [List.append_eq] at hmap ⊢
    rw [hmap]
    simp only [if_neg hnolead, hnt, Bool.false_eq_true, if_false, Option.some.injEq,
      Prod.mk.injEq]
    exact ⟨by rw [hval]; omega, trivial⟩

/-! ### String literal lemmas -/
theorem hexDigit_isHex : ∀ d < 16, isHex (hexDigit d) = true ∧ hexValD (hexDigit d) = d := by
  decide

theorem parseStrBody_esc (e : Nat) (he : ¬e = 117) (hB : escCharB e = true) (tail : Text) :
    parseStrBody (92 :: e :: tail) =
      (parseStrBody tail).map (fun p => (escCharD e :: p.1, p.2)) := by
  simp only [parseStrBody, parseEsc]
  rw [if_pos trivial, if_neg he, if_pos hB]
  norm_num

theorem parseStrBody_raw (c : Nat) (h32 : ¬c < 32) (h34 : ¬c = 34) (h92 : ¬c = 92)
    (tail : Text) :
    parseStrBody (c :: tail) = (parseStrBody tail).map (fun p => (c :: p.1, p.2)) := by
  simp only [parseStrBody]
  rw [if_neg h34, if_neg h92, if_neg h32]

theorem parseStrBody_hex (c : Nat) (hc : c < 32) (tail : Text) :
    parseStrBody (92 :: 117 :: 48 :: 48 :: hexDigit (c / 16) :: hexDigit (c % 16) :: tail) =
      (parseStrBody tail).map (fun p => (c :: p.1, p.2)) := by
  obtain ⟨hhex1, hhv1⟩ := hexDigit_isHex (c / 16) (by omega)
  obtain ⟨hhex2, hhv2⟩ := hexDigit_isHex (c % 16) (by omega)
  have h1 : parseStrBody (92 :: 117 :: 48 :: 48 :: hexDigit (c / 16) :: hexDigit (c % 16) :: tail)
      = parseEsc (117 :: 48 :: 48 :: hexDigit (c / 16) :: hexDigit (c % 16) :: tail) := by
    simp [parseStrBody]
  have h2 : parseEsc (117 :: 48 :: 48 :: hexDigit (c / 16) :: hexDigit (c % 16) :: tail)
      = parseHexEsc (48 :: 48 :: hexDigit (c / 16) :: hexDigit (c % 16) :: tail) := by
    simp [parseEsc]
  rw [h1, h2]
  simp only [parseHexEsc]
  rw [if_pos (by rw [hhex1, hhex2]; decide)]
  simp only [hhv1, hhv2]
  norm_num [hexValD]
  rw [if_neg (by omega)]
  have he : c / 16 * 16 + c % 16 = c := by omega
  rw [he]

theorem parseStrBody_ser (s : Text) (rest : Text) (hs : ∀ c ∈ s, validCpB c = true) :
    parseStrBody ((s.map escapeCp).flatten ++ rest) =
      (parseStrBody rest).map (fun p => (s ++ p.1, p.2)) := by
  induction s with
  | nil =>
      simp only [List.map_nil, List.flatten_nil, List.nil_append]
      cases hp : parseStrBody rest with
      | none => simp
      | some p => simp
  | cons c cs ih =>
      have hc := hs c (by simp)
      have hcs : ∀ x ∈ cs, validCpB x = true := fun x hx => hs x (by simp [hx])
      have hstep : (((c :: cs).map escapeCp).flatten ++ rest)
          = escapeCp c ++ ((cs.map escapeCp).flatten ++ rest) := by simp
      rw [hstep]
      by_cases h34 : c = 34
      · subst h34
        rw [show escapeCp 34 = [92, 34] from rfl]
        simp only [List.cons_append, List.nil_append]
        rw [parseStrBody_esc 34 (by norm_num) (by decide) _, ih hcs]
        cases hp : parseStrBody rest <;> simp [escCharD]
      by_cases h92 : c = 92
      · subst h92
        rw [show escapeCp 92 = [92, 92] from rfl]
        simp only [List.cons_append, List.nil_append]
        rw [parseStrBody_esc 92 (by norm_num) (by decide) _, ih hcs]
        cases hp : parseStrBody rest <;> simp [escCharD]
      by_cases h8 : c = 8
      · subst h8
        rw [show escapeCp 8 = [92, 98] from rfl]
        simp only [List.cons_append, List.nil_append]
        rw [parseStrBody_esc 98 (by norm_num) (by decide) _, ih hcs]
        cases hp : parseStrBody rest <;> simp [escCharD]
      by_cases h9 : c = 9
      · subst h9
        rw [show escapeCp 9 = [92, 116] from rfl]
        simp only [List.cons_append, List.nil_append]
        rw [parseStrBody_esc 116 (by norm_num) (by decide) _, ih hcs]
        cases hp : parseStrBody rest <;> simp [escCharD]
      by_cases h10 : c = 10
      · subst h10
        rw [show escapeCp 10 = [92, 110] from rfl]
        simp only [List.cons_append, List.nil_append]
        rw [parseStrBody_esc 110 (by norm_num) (by decide) _, ih hcs]
        cases hp : parseStrBody rest <;> simp [escCharD]
      by_cases h12 : c = 12
      · subst h12
        rw [show escapeCp 12 = [92, 102] from rfl]
        simp only [List.cons_append, List.nil_append]
        rw [parseStrBody_esc 102 (by norm_num) (by decide) _, ih hcs]
        cases hp : parseStrBody rest <;> simp [escCharD]
      by_cases h13 : c = 13
      · subst h13
        rw [show escapeCp 13 = [92, 114] from rfl]
        simp only [List.cons_append, List.nil_append]
        rw [parseStrBody_esc 114 (by norm_num) (by decide) _, ih hcs]
        cases hp : parseStrBody rest <;> simp [escCharD]
      by_cases hctl : c < 32
      · have hesc : escapeCp c = [92, 117, 48, 48, hexDigit (c / 16), hexDigit (c % 16)] := by
          unfold escapeCp
          rw [if_neg h34, if_neg h92, if_neg h8, if_neg h9, if_neg h10, if_neg h12,
            if_neg h13, if_pos hctl]
        rw [hesc]
        simp only [List.cons_append, List.nil_append]
        rw [parseStrBody_hex c hctl, ih hcs]
        cases hp : parseStrBody rest <;> simp
      · have hesc : escapeCp c = [c] := by
          unfold escapeCp
          rw [if_neg h34, if_neg h92, if_neg h8, if_neg h9, if_neg h10, if_neg h12,
            if_neg h13, if_neg hctl]
        rw [hesc]
        simp only [List.cons_append, List.nil_append]
        rw [parseStrBody_raw c hctl h34 h92, ih hcs]
        cases hp : parseStrBody rest <;> simp

/-! ### Serializer output facts -/
theorem digitsChars_valid (n : Nat) : ∀ c ∈ digitsChars n, validCpB c = true := by
  intro c hc
  rw [digitsChars_eq] at hc
  simp only [List.mem_map] at hc
  obtain ⟨d, hd, rfl⟩ := hc
  have := natDigits_lt_10 n d hd
  simp only [validCpB, Bool.or_eq_true, decide_eq_true_eq, Bool.and_eq_true]
  omega

theorem serNum_valid (i : Int) : ∀ c ∈ serNum i, validCpB c = true := by
  intro c hc
  unfold serNum at hc
  split_ifs at hc
  · rcases List.mem_cons.mp hc with rfl | hc2
    · decide
    · exact digitsChars_valid _ c hc2
  · exact digitsChars_valid _ c hc

theorem hexDigit_valid (d : Nat) (h : d < 16) : validCpB (hexDigit d) = true := by
  unfold hexDigit validCpB
  split_ifs <;> (simp only [Bool.or_eq_true, decide_eq_true_eq, Bool.and_eq_true]; omega)

theorem escapeCp_valid (c : Nat) (h : validCpB c = true) :
    ∀ x ∈ escapeCp c, validCpB x = true := by
  intro x hx
  unfold escapeCp at hx
  split_ifs at hx with h34 h92 h8 h9 h10 h12 h13 hctl
  all_goals simp only [List.mem_cons, List.mem_singleton, List.not_mem_nil, or_false] at hx
  · rcases hx with rfl | rfl <;> decide
  · rcases hx with rfl | rfl <;> decide
  · rcases hx with rfl | rfl <;> decide
  · rcases hx with rfl | rfl <;> decide
  · rcases hx with rfl | rfl <;> decide
  · rcases hx with rfl | rfl <;> decide
  · rcases hx with rfl | rfl <;> decide
  · rcases hx with rfl | rfl | rfl | rfl | rfl | rfl
    · decide
    · decide
    · decide
    · decide
    · exact hexDigit_valid _ (by omega)
    · exact hexDigit_valid _ (by omega)
  · rcases hx with rfl
    exact h

theorem serStr_valid (s : Text) (h : ∀ c ∈ s, validCpB c = true) :
    ∀ x ∈ serStr s, validCpB x = true := by
  intro x hx
  unfold serStr at hx
  rcases List.mem_cons.mp hx with rfl | hx2
  · decide
  rcases List.mem_append.mp hx2 with h3 | h3
  · simp only [List.mem_flatten, List.mem_map] at h3
    obtain ⟨l, ⟨c, hc, rfl⟩, hxl⟩ := h3
    exact escapeCp_valid c (h c hc) x hxl
  · simp only [List.mem_singleton] at h3
    subst h3
    decide

mutual

theorem Jval.ser_valid : ∀ (v : Jval), v.wfB = true → ∀ c ∈ Jval.ser v, validCpB c = true
  | .null, _ => by
      intro c hc
      simp only [Jval.ser, List.mem_cons, List.not_mem_nil, or_false] at hc
      rcases hc with rfl | rfl | rfl | rfl <;> decide
  | .bool true, _ => by
      intro c hc
      simp only [Jval.ser, List.mem_cons, List.not_mem_nil, or_false] at hc
      rcases hc with rfl | rfl | rfl | rfl <;> decide
  | .bool false, _ => by
      intro c hc
      simp only [Jval.ser, List.mem_cons, List.not_mem_nil, or_false] at hc
      rcases hc with rfl | rfl | rfl | rfl | rfl <;> decide
  | .num i, _ => by
      intro c hc
      exact serNum_valid i c hc
  | .str s, h => by
      intro c hc
      refine serStr_valid s ?_ c hc
      intro x hx
      simp only [Jval.wfB, List.all_eq_true] at h
      exact h x hx
  | .arr xs, h => by
      intro c hc
      simp only [Jval.ser] at hc
      rcases List.mem_cons.mp hc with rfl | hc2
      · decide
      rcases List.mem_append.mp hc2 with h3 | h3
      · exact serArr_valid xs (by simpa [Jval.wfB] using h) c h3
      · simp only [List.mem_singleton] at h3; subst h3; decide
  | .obj kvs, h => by
      intro c hc
      simp only [Jval.ser] at hc
      rcases List.mem_cons.mp hc with rfl | hc2
      · decide
      rcases List.mem_append.mp hc2 with h3 | h3
      · refine serObj_valid kvs ?_ c h3
        simp only [Jval.wfB, Bool.and_eq_true] at h
        exact h.2
      · simp only [List.mem_singleton] at h3; subst h3; decide
termination_by structural v => v

theorem serArr_valid : ∀ (xs : List Jval), wfListB xs = true → ∀ c ∈ serArr xs,
    validCpB c = true
  | [], _ => by intro c hc; simp [serArr] at hc
  | [v], h => by
      intro c hc
      rw [show serArr [v] = v.ser from rfl] at hc
      refine Jval.ser_valid v ?_ c hc
      simpa [wfListB] using h
  | v :: v2 :: rest, h => by
      intro c hc
      rw [show serArr (v :: v2 :: rest) = v.ser ++ 44 :: serArr (v2 :: rest) from rfl] at hc
      simp only [wfListB, Bool.and_eq_true] at h
      rcases List.mem_append.mp hc with h3 | h3
      · exact Jval.ser_valid v h.1 c h3
      rcases List.mem_cons.mp h3 with rfl | h4
      · decide
      · exact serArr_valid (v2 :: rest) (by simp [wfListB, h.2]) c h4
termination_by structural l => l

theorem serObj_valid : ∀ (kvs : List (Text × Jval)), wfPairsB kvs = true → ∀ c ∈ serObj kvs,
    validCpB c = true
  | [], _ => by intro c hc; simp [serObj] at hc
  | [(k, v)], h => by
      intro c hc
      rw [show serObj [(k, v)] = serStr k ++ 58 :: v.ser from rfl] at hc
      simp only [wfPairsB, Bool.and_eq_true, List.all_eq_true] at h
      rcases List.mem_append.mp hc with h3 | h3
      · exact serStr_valid k (fun x hx => h.1.1 x hx) c h3
      rcases List.mem_cons.mp h3 with rfl | h4
      · decide
      · exact Jval.ser_valid v h.1.2 c h4
  | (k, v) :: kv2 :: rest, h => by
      intro c hc
      rw [show serObj ((k, v) :: kv2 :: rest)
          = serStr k ++ 58 :: v.ser ++ 44 :: serObj (kv2 :: rest) from rfl] at hc
      simp only [wfPairsB, Bool.and_eq_true, List.all_eq_true] at h
      rw [show serStr k ++ 58 :: v.ser ++ 44 :: serObj (kv2 :: rest)
          = serStr k ++ 58 :: (v.ser ++ 44 :: serObj (kv2 :: rest)) by simp] at hc
      rcases List.mem_append.mp hc with h3 | h3
      · exact serStr_valid k (fun x hx => h.1.1 x hx) c h3
      rcases List.mem_cons.mp h3 with rfl | h4
      · decide
      rcases List.mem_append.mp h4 with h5 | h5
      · exact Jval.ser_valid v h.1.2 c h5
      rcases List.mem_cons.mp h5 with rfl | h6
      · decide
      · exact serObj_valid (kv2 :: rest) (by
          obtain ⟨k2, v2⟩ := kv2
          simp only [wfPairsB, Bool.and_eq_true, List.all_eq_true]
          exact ⟨⟨fun x hx => h.2.1.1 x hx, h.2.1.2⟩, h.2.2⟩) c h6
termination_by structural l => l

end

theorem serNum_head (i : Int) :
    ∃ c cs, serNum i = c :: cs ∧ (c = 45 ∨ (48 ≤ c ∧ c ≤ 57)) := by
  obtain ⟨d, ds, hds⟩ : ∃ d ds, natDigits i.natAbs = d :: ds := by
    cases hnd : natDigits i.natAbs with
    | nil => exact absurd hnd (natDigits_ne_nil _)
    | cons a b => exact ⟨a, b, rfl⟩
  have hd10 : d < 10 := natDigits_lt_10 _ d (by rw [hds]; simp)
  unfold serNum
  split_ifs
  · exact ⟨45, _, rfl, Or.inl rfl⟩
  · rw [digitsChars_eq, hds]
    exact ⟨48 + d, _, rfl, Or.inr (by omega)⟩

/-- The first character of a serialized value: never whitespace and never
a closing delimiter. -/
theorem ser_head (v : Jval) :
    ∃ c cs, Jval.ser v = c :: cs ∧ isWs c = false ∧ ¬c = 93 ∧ ¬c = 125 := by
  cases v with
  | null => exact ⟨110, _, rfl, by decide, by decide, by decide⟩
  | bool b => cases b with
      | true => exact ⟨116, _, rfl, by decide, by decide, by decide⟩
      | false => exact ⟨102, _, rfl, by decide, by decide, by decide⟩
  | num i =>
      obtain ⟨c, cs, hcs, hc⟩ := serNum_head i
      refine ⟨c, cs, hcs, ?_, by omega, by omega⟩
      simp only [isWs, Bool.or_eq_false_iff, decide_eq_false_iff_not]
      omega
  | str s => exact ⟨34, _, rfl, by decide, by decide, by decide⟩
  | arr xs => exact ⟨91, _, rfl, by decide, by decide, by decide⟩
  | obj kvs => exact ⟨123, _, rfl, by decide, by decide, by decide⟩

theorem skipWs_cons_nws (c : Nat) (t : Text) (h : isWs c = false) :
    skipWs (c :: t) = c :: t := by
  simp [skipWs, h]

theorem expects_self (p r : Text) : expects p (p ++ r) = some r := by
  induction p with
  | nil => rfl
  | cons c cs ih => simp [expects, ih]

theorem delimB_facts (rest : Text) (h : delimB rest = true) :
    noDigitHead rest = true ∧ numTail rest = false := by
  cases rest with
  | nil => exact ⟨rfl, rfl⟩
  | cons c cs =>
      simp only [delimB, Bool.or_eq_true, decide_eq_true_eq] at h
      constructor
      · simp only [noDigitHead, isDigit, Bool.not_eq_true', Bool.and_eq_false_iff,
          decide_eq_false_iff_not]
        omega
      · simp only [numTail, Bool.or_eq_false_iff, decide_eq_false_iff_not]
        omega

theorem serArr_head (x : Jval) (xs : List Jval) :
    ∃ c cs, serArr (x :: xs) = c :: cs ∧ isWs c = false ∧ ¬c = 93 ∧ ¬c = 125 := by
  obtain ⟨c, cs, h, h1, h2, h3⟩ := ser_head x
  cases xs with
  | nil => exact ⟨c, cs, by rw [show serArr [x] = x.ser from rfl, h], h1, h2, h3⟩
  | cons x2 xs2 =>
      refine ⟨c, cs ++ 44 :: serArr (x2 :: xs2), ?_, h1, h2, h3⟩
      rw [show serArr (x :: x2 :: xs2) = x.ser ++ 44 :: serArr (x2 :: xs2) from rfl, h]
      rfl

theorem serStr_shape (s : Text) :
    serStr s = 34 :: ((s.map escapeCp).flatten ++ [34]) := rfl

theorem ser_len_pos (v : Jval) : 1 ≤ (Jval.ser v).length := by
  obtain ⟨c, cs, h, -⟩ := ser_head v
  rw [h]
  simp

theorem serStr_len (s : Text) : 2 ≤ (serStr s).length := by
  rw [serStr_shape]
  simp

/-- Parsing is left inverse to serialization, given enough fuel: the heart
of the codec round-trip. -/
theorem parse_ser_roundtrip : ∀ f : Nat,
    (∀ v rest, Jval.wfB v = true → delimB rest = true →
      3 * (Jval.ser v).length + 1 ≤ f → parseVal f (Jval.ser v ++ rest) = some (v, rest)) ∧
    (∀ xs rest, wfListB xs = true → xs ≠ [] →
      3 * (serArr xs).length + 3 ≤ f →
      parseArrItems f (serArr xs ++ 93 :: rest) = some (xs, rest)) ∧
    (∀ kvs rest, wfPairsB kvs = true → kvs ≠ [] →
      3 * (serObj kvs).length + 3 ≤ f →
      parseObjItems f (serObj kvs ++ 125 :: rest) = some (kvs, rest)) := by
  intro f
  induction f using Nat.strong_induction_on with
  | _ f ih =>
  refine ⟨?_, ?_, ?_⟩
  · -- parseVal on a serialized value
    intro v rest hwf hdel hfuel
    match f, hfuel with
    | f' + 1, hfuel =>
    obtain ⟨hnd, hnt⟩ := delimB_facts rest hdel
    cases v with
    | null =>
        simp only [parseVal]
        rw [show Jval.ser Jval.null ++ rest = 110 :: ([117, 108, 108] ++ rest) from rfl,
          skipWs_cons_nws _ _ (by decide)]
        simp only []
        rw [if_pos trivial, expects_self]
        rfl
    | bool b =>
        cases b with
        | true =>
            simp only [parseVal]
            rw [show Jval.ser (Jval.bool true) ++ rest
                = 116 :: ([114, 117, 101] ++ rest) from rfl,
              skipWs_cons_nws _ _ (by decide)]
            simp only []
            rw [if_neg (by norm_num), if_pos trivial, expects_self]
            rfl
        | false =>
            simp only [parseVal]
            rw [show Jval.ser (Jval.bool false) ++ rest
                = 102 :: ([97, 108, 115, 101] ++ rest) from rfl,
              skipWs_cons_nws _ _ (by decide)]
            simp only []
            rw [if_neg (by norm_num), if_neg (by norm_num), if_pos trivial, expects_self]
            rfl
    | num i =>
        obtain ⟨c, cs, hser, hc⟩ := serNum_head i
        have hws : isWs c = false := by
          simp only [isWs, Bool.or_eq_false_iff, decide_eq_false_iff_not]
          omega
        simp only [parseVal]
        rw [show Jval.ser (Jval.num i) = serNum i from rfl, hser, List.cons_append,
          skipWs_cons_nws _ _ hws]
        simp only []
        rw [if_neg (by omega), if_neg (by omega), if_neg (by omega), if_neg (by omega),
          if_neg (by omega), if_neg (by omega)]
        rw [if_pos (show (decide (c = 45) || isDigit c) = true by
          rcases hc with rfl | hc
          · rfl
          · simp only [isDigit, Bool.or_eq_true, decide_eq_true_eq, Bool.and_eq_true]
            omega)]
        rw [show c :: (cs ++ rest) = serNum i ++ rest by rw [hser]; rfl]
        rw [parseNum_serNum i rest hnd hnt]
        rfl
    | str s =>
        have hv : ∀ x ∈ s, validCpB x = true := by
          simpa [Jval.wfB, List.all_eq_true] using hwf
        simp only [parseVal]
        rw [show Jval.ser (Jval.str s) ++ rest
            = 34 :: ((s.map escapeCp).flatten ++ (34 :: rest)) by
          rw [show Jval.ser (Jval.str s) = serStr s from rfl, serStr_shape]
          simp]
        rw [skipWs_cons_nws _ _ (by decide)]
        simp only []
        rw [if_neg (by norm_num), if_neg (by norm_num), if_neg (by norm_num), if_pos trivial]
        rw [parseStrBody_ser s (34 :: rest) hv]
        rw [show parseStrBody (34 :: rest) = some ([], rest) from by simp [parseStrBody]]
        simp
    | arr xs =>
        have hlen : (Jval.ser (Jval.arr xs)).length = (serArr xs).length + 2 := by
          simp [Jval.ser]
        simp only [parseVal]
        rw [show Jval.ser (Jval.arr xs) ++ rest
            = 91 :: (serArr xs ++ (93 :: rest)) by
          rw [show Jval.ser (Jval.arr xs) = 91 :: (serArr xs ++ [93]) from rfl]
          simp]
        rw [skipWs_cons_nws _ _ (by decide)]
        simp only []
        rw [if_neg (by norm_num), if_neg (by norm_num), if_neg (by norm_num),
          if_neg (by norm_num), if_pos trivial]
        match f', hfuel with
        | f'' + 1, hfuel =>
        simp only [parseArrStart]
        cases xs with
        | nil =>
            rw [show serArr ([] : List Jval) ++ 93 :: rest = 93 :: rest from rfl,
              skipWs_cons_nws _ _ (by decide)]
            simp only []
            rw [if_pos trivial]
        | cons x xs2 =>
            obtain ⟨c, cs, hsa, hws, h93, _⟩ := serArr_head x xs2
            rw [hsa, List.cons_append, skipWs_cons_nws _ _ hws]
            simp only []
            rw [if_neg h93]
            rw [show c :: (cs ++ 93 :: rest) = serArr (x :: xs2) ++ 93 :: rest by
              rw [hsa]; rfl]
            rw [(ih (f'' ) (by omega)).2.1 (x :: xs2) rest
              (by simpa [Jval.wfB] using hwf) (by simp)
              (by rw [hlen] at hfuel; omega)]
            rfl
    | obj kvs =>
        have hlen : (Jval.ser (Jval.obj kvs)).length = (serObj kvs).length + 2 := by
          simp [Jval.ser]
        have hsorted : keysSorted kvs = true := by
          simp only [Jval.wfB, Bool.and_eq_true] at hwf
          exact hwf.1
        have hpairs : wfPairsB kvs = true := by
          simp only [Jval.wfB, Bool.and_eq_true] at hwf
          exact hwf.2
        simp only [parseVal]
        rw [show Jval.ser (Jval.obj kvs) ++ rest
            = 123 :: (serObj kvs ++ (125 :: rest)) by
          rw [show Jval.ser (Jval.obj kvs) = 123 :: (serObj kvs ++ [125]) from rfl]
          simp]
        rw [skipWs_cons_nws _ _ (by decide)]
        simp only []
        rw [if_neg (by norm_num), if_neg (by norm_num), if_neg (by norm_num),
          if_neg (by norm_num), if_neg (by norm_num), if_pos trivial]
        match f', hfuel with
        | f'' + 1, hfuel =>
        simp only [parseObjStart]
        cases kvs with
        | nil =>
            rw [show serObj ([] : List (Text × Jval)) ++ 125 :: rest = 125 :: rest from rfl,
              skipWs_cons_nws _ _ (by decide)]
            simp only []
            rw [if_pos trivial]
        | cons kv kvs2 =>
            obtain ⟨k, v⟩ := kv
            have hobjhead : ∃ tail, serObj ((k, v) :: kvs2) = 34 :: tail := by
              cases kvs2 with
              | nil =>
                  refine ⟨(k.map escapeCp).flatten ++ [34] ++ (58 :: v.ser), ?_⟩
                  rw [show serObj [(k, v)] = serStr k ++ 58 :: v.ser from rfl, serStr_shape]
                  simp
              | cons kv2 r2 =>
                  refine ⟨(k.map escapeCp).flatten ++ [34]
                    ++ (58 :: (v.ser ++ 44 :: serObj (kv2 :: r2))), ?_⟩
                  rw [show serObj ((k, v) :: kv2 :: r2)
                      = serStr k ++ 58 :: v.ser ++ 44 :: serObj (kv2 :: r2) from rfl,
                    serStr_shape]
                  simp
            obtain ⟨tail, htail⟩ := hobjhead
            rw [htail, List.cons_append, skipWs_cons_nws _ _ (by decide)]
            simp only []
            rw [if_neg (by norm_num)]
            rw [show 34 :: (tail ++ 125 :: rest) = serObj ((k, v) :: kvs2) ++ 125 :: rest by
              rw [htail]; rfl]
            rw [(ih f'' (by omega)).2.2 ((k, v) :: kvs2) rest hpairs (by simp)
              (by rw [hlen] at hfuel; omega)]
            simp only [Option.map_some, Option.map_some']
            rw [foldIns_sorted _ hsorted]
  · -- parseArrItems on serialized items
    intro xs rest hwf hne hfuel
    match f, hfuel with
    | f' + 1, hfuel =>
    cases xs with
    | nil => exact absurd rfl hne
    | cons v xs2 =>
    have hv1 : Jval.wfB v = true := by
      simp only [wfListB, Bool.and_eq_true] at hwf
      exact hwf.1
    have hvlen := ser_len_pos v
    simp only [parseArrItems]
    cases xs2 with
    | nil =>
        rw [show serArr [v] ++ 93 :: rest = Jval.ser v ++ 93 :: rest from rfl]
        rw [(ih f' (by omega)).1 v (93 :: rest) hv1 (by simp [delimB])
          (by rw [show serArr [v] = Jval.ser v from rfl] at hfuel; omega)]
        simp only []
        rw [skipWs_cons_nws _ _ (by decide)]
        simp only []
        rw [if_neg (by norm_num), if_pos trivial]
    | cons v2 xs3 =>
        have hlen2 : (serArr (v :: v2 :: xs3)).length
            = (Jval.ser v).length + 1 + (serArr (v2 :: xs3)).length := by
          rw [show serArr (v :: v2 :: xs3) = Jval.ser v ++ 44 :: serArr (v2 :: xs3) from rfl]
          simp
          omega
        rw [show serArr (v :: v2 :: xs3) ++ 93 :: rest
            = Jval.ser v ++ (44 :: (serArr (v2 :: xs3) ++ 93 :: rest)) by
          rw [show serArr (v :: v2 :: xs3) = Jval.ser v ++ 44 :: serArr (v2 :: xs3) from rfl]
          simp]
        rw [(ih f' (by omega)).1 v _ hv1 (by simp [delimB]) (by rw [hlen2] at hfuel; omega)]
        simp only []
        rw [skipWs_cons_nws _ _ (by decide)]
        simp only []
        rw [if_pos trivial]
        rw [(ih f' (by omega)).2.1 (v2 :: xs3) rest
          (by simp only [wfListB, Bool.and_eq_true] at hwf; simp [wfListB, hwf.2])
          (by simp) (by rw [hlen2] at hfuel; omega)]
        rfl
  · -- parseObjItems on serialized fields
    intro kvs rest hwf hne hfuel
    match f, hfuel with
    | f' + 1, hfuel =>
    cases kvs with
    | nil => exact absurd rfl hne
    | cons kv kvs2 =>
    obtain ⟨k, v⟩ := kv
    have hkvalid : ∀ x ∈ k, validCpB x = true := by
      simp only [wfPairsB, Bool.and_eq_true, List.all_eq_true] at hwf
      exact fun x hx => hwf.1.1 x hx
    have hv1 : Jval.wfB v = true := by
      simp only [wfPairsB, Bool.and_eq_true] at hwf
      exact hwf.1.2
    have hvlen := ser_len_pos v
    have hklen := serStr_len k
    simp only [parseObjItems]
    cases kvs2 with
    | nil =>
        have hshape : serObj [(k, v)] ++ 125 :: rest
            = 34 :: ((k.map escapeCp).flatten ++ (34 :: (58 :: (Jval.ser v ++ 125 :: rest)))) := by
          rw [show serObj [(k, v)] = serStr k ++ 58 :: v.ser from rfl, serStr_shape]
          simp
        have hslen : (serObj [(k, v)]).length = (serStr k).length + 1 + (Jval.ser v).length := by
          rw [show serObj [(k, v)] = serStr k ++ 58 :: v.ser from rfl]
          simp
          omega
        rw [hshape, skipWs_cons_nws _ _ (by decide)]
        simp only []
        rw [if_pos trivial]
        rw [parseStrBody_ser k _ hkvalid]
        rw [show parseStrBody (34 :: (58 :: (Jval.ser v ++ 125 :: rest)))
            = some ([], 58 :: (Jval.ser v ++ 125 :: rest)) from by simp [parseStrBody]]
        simp only [Option.map_some, Option.map_some']
        rw [skipWs_cons_nws _ _ (by decide)]
        simp only []
        rw [if_pos trivial]
        rw [(ih f' (by omega)).1 v (125 :: rest) hv1 (by simp [delimB])
          (by rw [hslen] at hfuel; omega)]
        simp only []
        rw [skipWs_cons_nws _ _ (by decide)]
        simp only []
        rw [if_neg (by norm_num), if_pos trivial]
        simp
    | cons kv2 kvs3 =>
        have hshape : serObj ((k, v) :: kv2 :: kvs3) ++ 125 :: rest
            = 34 :: ((k.map escapeCp).flatten ++ (34 :: (58 :: (Jval.ser v
              ++ (44 :: (serObj (kv2 :: kvs3) ++ 125 :: rest)))))) := by
          rw [show serObj ((k, v) :: kv2 :: kvs3)
              = serStr k ++ 58 :: v.ser ++ 44 :: serObj (kv2 :: kvs3) from rfl, serStr_shape]
          simp
        have hslen : (serObj ((k, v) :: kv2 :: kvs3)).length
            = (serStr k).length + 1 + (Jval.ser v).length + 1
              + (serObj (kv2 :: kvs3)).length := by
          rw [show serObj ((k, v) :: kv2 :: kvs3)
              = serStr k ++ 58 :: v.ser ++ 44 :: serObj (kv2 :: kvs3) from rfl]
          simp
          omega
        rw [hshape, skipWs_cons_nws _ _ (by decide)]
        simp only []
        rw [if_pos trivial]
        rw [parseStrBody_ser k _ hkvalid]
        rw [show parseStrBody (34 :: (58 :: (Jval.ser v
              ++ (44 :: (serObj (kv2 :: kvs3) ++ 125 :: rest)))))
            = some ([], 58 :: (Jval.ser v ++ (44 :: (serObj (kv2 :: kvs3) ++ 125 :: rest))))
            from by simp [parseStrBody]]
        simp only [Option.map_some, Option.map_some']
        rw [skipWs_cons_nws _ _ (by decide)]
        simp only []
        rw [if_pos trivial]
        rw [(ih f' (by omega)).1 v _ hv1 (by simp [delimB]) (by rw [hslen] at hfuel; omega)]
        simp only []
        rw [skipWs_cons_nws _ _ (by decide)]
        simp only []
        rw [if_pos trivial]
        rw [(ih f' (by omega)).2.2 (kv2 :: kvs3) rest
          (by
            obtain ⟨k2, v2⟩ := kv2
            simp only [wfPairsB, Bool.and_eq_true, List.all_eq_true] at hwf ⊢
            exact ⟨⟨fun x hx => hwf.2.1.1 x hx, hwf.2.1.2⟩, hwf.2.2⟩)
          (by simp) (by rw [hslen] at hfuel; omega)]
        simp

/-- Round trip of the canonical codec on well-formed maps. -/
theorem part_to_map_map_to_part (m : List (Text × Jval)) (h : (Jval.obj m).wfB = true) :
    part_to_map (map_to_part m) = some m := by
  have hvalid : ∀ c ∈ Jval.ser (Jval.obj m), validCpB c = true :=
    Jval.ser_valid (Jval.obj m) h
  have hbytes : ∀ b ∈ utf8Encode (Jval.ser (Jval.obj m)), b < 256 :=
    utf8Encode_lt_256 _ hvalid
  unfold part_to_map map_to_part
  rw [base64urlDecode_encode _ hbytes]
  rw [show (some (utf8Encode (Jval.ser (Jval.obj m))) >>= fun bytes =>
      utf8Decode bytes >>= fun s =>
        match parseVal (3 * s.length + 3) s with
        | some (Jval.obj kvs, rest) => if (skipWs rest).isEmpty then some kvs else none
        | _ => none) = (utf8Decode (utf8Encode (Jval.ser (Jval.obj m))) >>= fun s =>
        match parseVal (3 * s.length + 3) s with
        | some (Jval.obj kvs, rest) => if (skipWs rest).isEmpty then some kvs else none
        | _ => none) from rfl]
  rw [utf8Decode_encode _ hvalid]
  have hparse := (parse_ser_roundtrip (3 * (Jval.ser (Jval.obj m)).length + 3)).1
    (Jval.obj m) [] h (by rfl) (by omega)
  rw [List.append_nil] at hparse
  rw [show (some (Jval.ser (Jval.obj m)) >>= fun s =>
      match parseVal (3 * s.length + 3) s with
      | some (Jval.obj kvs, rest) => if (skipWs rest).isEmpty then some kvs else none
      | _ => none) = (match parseVal (3 * (Jval.ser (Jval.obj m)).length + 3)
          (Jval.ser (Jval.obj m)) with
      | some (Jval.obj kvs, rest) => if (skipWs rest).isEmpty then some kvs else none
      | _ => none) from rfl]
  rw [hparse]
  rfl

/-! ### Token splitting lemmas -/
theorem splitOnDot_no_dot (t : Text) (h : ∀ c ∈ t, c ≠ 46) : splitOnDot t = [t] := by
  induction t with
  | nil => rfl
  | cons c cs ih =>
      simp only [splitOnDot]
      rw [if_neg (h c (by simp))]
      rw [ih (fun x hx => h x (by simp [hx]))]

theorem splitOnDot_append (a b : Text) (ha : ∀ c ∈ a, c ≠ 46) :
    splitOnDot (a ++ 46 :: b) = a :: splitOnDot b := by
  induction a with
  | nil =>
      simp only [List.nil_append, splitOnDot]
      rw [if_pos trivial]
  | cons c cs ih =>
      simp only [List.cons_append, splitOnDot]
      rw [if_neg (ha c (by simp))]
      simp only [List.append_eq]
      rw [ih (fun x hx => ha x (by simp [hx]))]

theorem splitOnDot_parts_no_dot (t : Text) : ∀ p ∈ splitOnDot t, ∀ c ∈ p, c ≠ 46 := by
  induction t with
  | nil =>
      intro p hp c hc
      simp only [splitOnDot, List.mem_singleton] at hp
      subst hp
      simp at hc
  | cons x xs ih =>
      intro p hp c hc
      simp only [splitOnDot] at hp
      by_cases hx : x = 46
      · rw [if_pos hx] at hp
        rcases List.mem_cons.mp hp with rfl | hp2
        · simp at hc
        · exact ih p hp2 c hc
      · rw [if_neg hx] at hp
        cases hsp : splitOnDot xs with
        | nil => rw [hsp] at hp; simp at hp; subst hp; simp at hc; subst hc; exact hx
        | cons q qs =>
            rw [hsp] at hp
            rcases List.mem_cons.mp hp with rfl | hp2
            · rcases List.mem_cons.mp hc with rfl | hc2
              · exact hx
              · exact ih q (by rw [hsp]; simp) c hc2
            · exact ih p (by rw [hsp]; simp [hp2]) c hc

theorem map_to_part_no_dot (m : List (Text × Jval)) : ∀ c ∈ map_to_part m, c ≠ 46 :=
  fun c hc => base64urlEncode_ne_dot _ c hc

/-- The three-part shape of a freshly signed token. -/
theorem splitOnDot_signParts (h p : Text) (sg : Signer)
    (hh : ∀ c ∈ h, c ≠ 46) (hp : ∀ c ∈ p, c ≠ 46) :
    splitOnDot (signParts h p sg) =
      [h, p, base64urlEncode (sg.sign (utf8Encode (h ++ 46 :: p)))] := by
  unfold signParts
  rw [show h ++ 46 :: p ++ 46 :: base64urlEncode (sg.sign (utf8Encode (h ++ 46 :: p)))
      = h ++ 46 :: (p ++ 46 :: base64urlEncode (sg.sign (utf8Encode (h ++ 46 :: p))))
      by simp]
  rw [splitOnDot_append _ _ hh, splitOnDot_append _ _ hp,
    splitOnDot_no_dot _ (fun c hc => base64urlEncode_ne_dot _ c hc)]

/-! ### Map operation lemmas -/
theorem containsKey_append (k : Text) (a b : List (Text × Jval)) :
    containsKey k (a ++ b) = (containsKey k a || containsKey k b) := by
  induction a with
  | nil => simp [containsKey]
  | cons kv rest ih =>
      obtain ⟨k1, v1⟩ := kv
      simp [containsKey, ih, Bool.or_assoc]

theorem containsKey_false_of (k : Text) (m : List (Text × Jval))
    (h : ∀ kv ∈ m, ¬k = kv.1) : containsKey k m = false := by
  induction m with
  | nil => rfl
  | cons kv rest ih =>
      obtain ⟨k1, v1⟩ := kv
      simp only [containsKey, Bool.or_eq_false_iff, decide_eq_false_iff_not]
      exact ⟨h (k1, v1) (by simp), ih (fun kv hkv => h kv (by simp [hkv]))⟩

theorem lookupKey_append_right (k : Text) (a b : List (Text × Jval))
    (h : ∀ kv ∈ a, ¬k = kv.1) : lookupKey k (a ++ b) = lookupKey k b := by
  induction a with
  | nil => rfl
  | cons kv rest ih =>
      obtain ⟨k1, v1⟩ := kv
      simp only [List.cons_append, lookupKey]
      rw [if_neg (h (k1, v1) (by simp))]
      simp only [List.append_eq]
      exact ih (fun kv hkv => h kv (by simp [hkv]))

theorem eraseKey_mem (k : Text) (m : List (Text × Jval)) :
    ∀ kv ∈ eraseKey k m, kv ∈ m := by
  induction m with
  | nil => intro kv hkv; simp [eraseKey] at hkv
  | cons kv1 rest ih =>
      obtain ⟨k1, v1⟩ := kv1
      intro kv hkv
      simp only [eraseKey] at hkv
      by_cases he : k = k1
      · rw [if_pos he] at hkv
        exact List.mem_cons_of_mem _ hkv
      · rw [if_neg he] at hkv
        rcases List.mem_cons.mp hkv with rfl | h2
        · simp
        · exact List.mem_cons_of_mem _ (ih kv h2)

theorem keysSorted_cons_of (k1 : Text) (v1 : Jval) (rest : List (Text × Jval))
    (hrest : keysSorted rest = true) (hall : ∀ kv ∈ rest, textLt k1 kv.1 = true) :
    keysSorted ((k1, v1) :: rest) = true := by
  cases rest with
  | nil => rfl
  | cons kv2 rest2 =>
      obtain ⟨k2, v2⟩ := kv2
      simp only [keysSorted, Bool.and_eq_true]
      exact ⟨hall (k2, v2) (by simp), hrest⟩

theorem eraseKey_sorted (k : Text) (m : List (Text × Jval)) (hm : keysSorted m = true) :
    keysSorted (eraseKey k m) = true := by
  induction m with
  | nil => rfl
  | cons kv1 rest ih =>
      obtain ⟨k1, v1⟩ := kv1
      simp only [eraseKey]
      by_cases he : k = k1
      · rw [if_pos he]
        exact keysSorted_tail _ _ hm
      · rw [if_neg he]
        refine keysSorted_cons_of _ _ _ (ih (keysSorted_tail _ _ hm)) ?_
        intro kv hkv
        exact keysSorted_head_lt k1 v1 rest hm kv (eraseKey_mem k rest kv hkv)

theorem eraseKey_wfPairs (k : Text) (m : List (Text × Jval)) (hm : wfPairsB m = true) :
    wfPairsB (eraseKey k m) = true := by
  induction m with
  | nil => rfl
  | cons kv1 rest ih =>
      obtain ⟨k1, v1⟩ := kv1
      simp only [wfPairsB, Bool.and_eq_true] at hm
      simp only [eraseKey]
      by_cases he : k = k1
      · rw [if_pos he]; exact hm.2
      · rw [if_neg he]
        simp only [wfPairsB, Bool.and_eq_true]
        exact ⟨⟨hm.1.1, hm.1.2⟩, ih hm.2⟩

theorem eraseKey_wfB (k : Text) (m : List (Text × Jval))
    (hm : (Jval.obj m).wfB = true) : (Jval.obj (eraseKey k m)).wfB = true := by
  simp only [Jval.wfB, Bool.and_eq_true] at hm ⊢
  exact ⟨eraseKey_sorted k m hm.1, eraseKey_wfPairs k m hm.2⟩

theorem eraseKey_containsKey_self (k : Text) (m : List (Text × Jval))
    (hm : keysSorted m = true) : containsKey k (eraseKey k m) = false := by
  induction m with
  | nil => rfl
  | cons kv1 rest ih =>
      obtain ⟨k1, v1⟩ := kv1
      simp only [eraseKey]
      by_cases he : k = k1
      · rw [if_pos he]
        refine containsKey_false_of _ _ ?_
        intro kv hkv hke
        have := keysSorted_head_lt k1 v1 rest hm kv hkv
        exact textLt_ne _ _ this (by rw [← hke, he])
      · rw [if_neg he]
        simp only [containsKey, Bool.or_eq_false_iff, decide_eq_false_iff_not]
        exact ⟨he, ih (keysSorted_tail _ _ hm)⟩

theorem setKey_keys_mem (k : Text) (v : Jval) (m : List (Text × Jval)) :
    ∀ kv ∈ setKey k v m, ∃ v2, (kv.1, v2) ∈ m := by
  induction m with
  | nil => intro kv hkv; simp [setKey] at hkv
  | cons kv1 rest ih =>
      obtain ⟨k1, v1⟩ := kv1
      intro kv hkv
      simp only [setKey] at hkv
      by_cases he : k = k1
      · rw [if_pos he] at hkv
        rcases List.mem_cons.mp hkv with rfl | h2
        · exact ⟨v1, by simp [he]⟩
        · exact ⟨kv.2, List.mem_cons_of_mem _ h2⟩
      · rw [if_neg he] at hkv
        rcases List.mem_cons.mp hkv with rfl | h2
        · exact ⟨v1, by simp⟩
        · obtain ⟨v2, h3⟩ := ih kv h2
          exact ⟨v2, List.mem_cons_of_mem _ h3⟩

theorem setKey_sorted (k : Text) (v : Jval) (m : List (Text × Jval))
    (hm : keysSorted m = true) : keysSorted (setKey k v m) = true := by
  induction m with
  | nil => rfl
  | cons kv1 rest ih =>
      obtain ⟨k1, v1⟩ := kv1
      simp only [setKey]
      by_cases he : k = k1
      · rw [if_pos he]
        subst he
        refine keysSorted_cons_of _ _ _ (keysSorted_tail _ _ hm) ?_
        intro kv hkv
        exact keysSorted_head_lt k v1 rest hm kv hkv
      · rw [if_neg he]
        refine keysSorted_cons_of _ _ _ (ih (keysSorted_tail _ _ hm)) ?_
        intro kv hkv
        obtain ⟨v2, h3⟩ := setKey_keys_mem k v rest kv hkv
        exact keysSorted_head_lt k1 v1 rest hm (kv.1, v2) h3

theorem setKey_wfPairs (k : Text) (v : Jval) (m : List (Text × Jval))
    (hv : v.wfB = true) (hm : wfPairsB m = true) : wfPairsB (setKey k v m) = true := by
  induction m with
  | nil => rfl
  | cons kv1 rest ih =>
      obtain ⟨k1, v1⟩ := kv1
      simp only [wfPairsB, Bool.and_eq_true] at hm
      simp only [setKey]
      by_cases he : k = k1
      · rw [if_pos he]
        simp only [wfPairsB, Bool.and_eq_true]
        exact ⟨⟨by rw [he]; exact hm.1.1, hv⟩, hm.2⟩
      · rw [if_neg he]
        simp only [wfPairsB, Bool.and_eq_true]
        exact ⟨⟨hm.1.1, hm.1.2⟩, ih hm.2⟩

theorem setKey_wfB (k : Text) (v : Jval) (m : List (Text × Jval))
    (hv : v.wfB = true) (hm : (Jval.obj m).wfB = true) :
    (Jval.obj (setKey k v m)).wfB = true := by
  simp only [Jval.wfB, Bool.and_eq_true] at hm ⊢
  exact ⟨setKey_sorted k v m hm.1, setKey_wfPairs k v m hv hm.2⟩

theorem lookupKey_setKey_self (k : Text) (v : Jval) (m : List (Text × Jval))
    (hm : containsKey k m = true) : lookupKey k (setKey k v m) = some v := by
  induction m with
  | nil => simp [containsKey] at hm
  | cons kv1 rest ih =>
      obtain ⟨k1, v1⟩ := kv1
      simp only [containsKey, Bool.or_eq_true, decide_eq_true_eq] at hm
      simp only [setKey]
      by_cases he : k = k1
      · rw [if_pos he]
        simp [lookupKey]
      · rw [if_neg he]
        simp only [lookupKey]
        rw [if_neg he]
        exact ih (hm.resolve_left he)

/-! ### Validity of encoded parts and tokens -/
theorem base64urlEncode_valid (bs : List Nat) :
    ∀ c ∈ base64urlEncode bs, validCpB c = true := by
  induction bs using base64urlEncode.induct with
  | case1 => intro c hc; simp [base64urlEncode] at hc
  | case2 b1 =>
      intro c hc
      simp [base64urlEncode] at hc
      rcases hc with h | h <;> (subst h; exact b64Char_valid _)
  | case3 b1 b2 =>
      intro c hc
      simp [base64urlEncode] at hc
      rcases hc with h | h | h <;> (subst h; exact b64Char_valid _)
  | case4 b1 b2 b3 rest ih =>
      intro c hc
      simp [base64urlEncode] at hc
      rcases hc with h | h | h | h | h
      · subst h; exact b64Char_valid _
      · subst h; exact b64Char_valid _
      · subst h; exact b64Char_valid _
      · subst h; exact b64Char_valid _
      · exact ih c h

theorem map_to_part_valid (m : List (Text × Jval)) :
    ∀ c ∈ map_to_part m, validCpB c = true :=
  fun c hc => base64urlEncode_valid _ c hc

theorem signParts_valid (h p : Text) (sg : Signer)
    (hh : ∀ c ∈ h, validCpB c = true) (hp : ∀ c ∈ p, validCpB c = true) :
    ∀ c ∈ signParts h p sg, validCpB c = true := by
  intro c hc
  unfold signParts at hc
  rw [List.mem_append] at hc
  rcases hc with hc | hc
  · rw [List.mem_append] at hc
    rcases hc with h1 | hc
    · exact hh c h1
    rw [List.mem_cons] at hc
    rcases hc with rfl | h1
    · decide
    · exact hp c h1
  · rw [List.mem_cons] at hc
    rcases hc with rfl | h1
    · decide
    · exact base64urlEncode_valid _ c h1

theorem buildToken_valid (issuer : Signer) (aud : Text) (opts : UcanOptions) (nonce : Text) :
    ∀ c ∈ buildToken issuer aud opts nonce, validCpB c = true :=
  signParts_valid _ _ _ (map_to_part_valid _) (map_to_part_valid _)

/-- The three-part shape of every built token. -/
theorem splitOnDot_buildToken (issuer : Signer) (aud : Text) (opts : UcanOptions)
    (nonce : Text) :
    splitOnDot (buildToken issuer aud opts nonce)
      = [map_to_part buildHeaderMap, map_to_part (buildPayloadMap issuer aud opts nonce),
         base64urlEncode (issuer.sign (utf8Encode (map_to_part buildHeaderMap ++ 46 ::
           map_to_part (buildPayloadMap issuer aud opts nonce))))] :=
  splitOnDot_signParts _ _ _ (map_to_part_no_dot _) (map_to_part_no_dot _)

theorem containsKey_here (k : Text) (v : Jval) (b : List (Text × Jval)) :
    containsKey k ((k, v) :: b) = true := by
  simp [containsKey]

theorem containsKey_append_here (k : Text) (v : Jval) (a b : List (Text × Jval)) :
    containsKey k (a ++ (k, v) :: b) = true := by
  rw [containsKey_append, containsKey_here]
  simp

theorem eraseKey_append_left (k : Text) (a b : List (Text × Jval))
    (h : ∀ kv ∈ a, ¬k = kv.1) : eraseKey k (a ++ b) = a ++ eraseKey k b := by
  induction a with
  | nil => rfl
  | cons kv1 rest ih =>
      obtain ⟨k1, v1⟩ := kv1
      simp only [List.cons_append, eraseKey]
      rw [if_neg (h (k1, v1) (by simp))]
      simp only [List.append_eq]
      rw [ih (fun kv hkv => h kv (by simp [hkv]))]

/-! ### Well-formedness of the built maps -/
theorem buildHeaderMap_wf : (Jval.obj buildHeaderMap).wfB = true := by decide

theorem buildPayloadMap_default_eq (issuer : Signer) (aud nonce : Text) :
    buildPayloadMap issuer aud {} nonce
      = [(txt "aud", Jval.str aud), (txt "cap", Jval.obj []), (txt "exp", Jval.null),
         (txt "iss", Jval.str issuer.did), (txt "ucv", Jval.str ucvStr)] := rfl

theorem wf_payload_default (issuer : Signer) (aud nonce : Text)
    (hd : issuer.did.all validCpB = true) (ha : aud.all validCpB = true) :
    (Jval.obj (buildPayloadMap issuer aud {} nonce)).wfB = true := by
  rw [buildPayloadMap_default_eq]
  simp only [Jval.wfB, keysSorted, wfPairsB, Bool.and_eq_true]
  repeat' apply And.intro
  all_goals first | exact hd | exact ha | decide

theorem buildPayloadMap_exp_eq (issuer : Signer) (aud nonce : Text) (e : Nat) :
    buildPayloadMap issuer aud { expiration := some e } nonce
      = [(txt "aud", Jval.str aud), (txt "cap", Jval.obj []), (txt "exp", Jval.num e),
         (txt "iss", Jval.str issuer.did), (txt "ucv", Jval.str ucvStr)] := rfl

theorem buildPayloadMap_proofs_eq (issuer : Signer) (aud nonce pr : Text) :
    buildPayloadMap issuer aud { proofs := [pr] } nonce
      = [(txt "aud", Jval.str aud), (txt "cap", Jval.obj []), (txt "exp", Jval.null),
         (txt "iss", Jval.str issuer.did), (txt "prf", Jval.arr [Jval.str pr]),
         (txt "ucv", Jval.str ucvStr)] := rfl

theorem wf_payload_proofs (issuer : Signer) (aud nonce pr : Text)
    (hd : issuer.did.all validCpB = true) (ha : aud.all validCpB = true)
    (hpr : pr.all validCpB = true) :
    (Jval.obj (buildPayloadMap issuer aud { proofs := [pr] } nonce)).wfB = true := by
  rw [buildPayloadMap_proofs_eq]
  simp only [Jval.wfB, keysSorted, wfPairsB, wfListB, Bool.and_eq_true]
  repeat' apply And.intro
  all_goals first | exact hd | exact ha | exact hpr | decide

/-! ### Tamper results on built tokens -/
theorem remove_header_field_shape (issuer sg : Signer) (aud : Text) (opts : UcanOptions)
    (nonce fld : Text) :
    remove_field (buildToken issuer aud opts nonce) headerStr fld sg
      = .ok (signParts (map_to_part (eraseKey fld buildHeaderMap))
          (map_to_part (buildPayloadMap issuer aud opts nonce)) sg) := by
  simp only [remove_field]
  rw [splitOnDot_buildToken, if_pos trivial]
  simp only []
  rw [part_to_map_map_to_part _ buildHeaderMap_wf]

theorem remove_payload_field_shape (issuer sg : Signer) (aud : Text) (opts : UcanOptions)
    (nonce fld : Text)
    (hwf : (Jval.obj (buildPayloadMap issuer aud opts nonce)).wfB = true) :
    remove_field (buildToken issuer aud opts nonce) payloadStr fld sg
      = .ok (signParts (map_to_part buildHeaderMap)
          (map_to_part (eraseKey fld (buildPayloadMap issuer aud opts nonce))) sg) := by
  simp only [remove_field]
  rw [splitOnDot_buildToken, if_neg (by decide : ¬(payloadStr = headerStr)), if_pos trivial]
  simp only []
  rw [part_to_map_map_to_part _ hwf]

theorem mutate_payload_field_shape (issuer sg : Signer) (aud : Text) (opts : UcanOptions)
    (nonce fld : Text) (val : Jval)
    (hwf : (Jval.obj (buildPayloadMap issuer aud opts nonce)).wfB = true)
    (hct : containsKey fld (buildPayloadMap issuer aud opts nonce) = true) :
    mutate_field (buildToken issuer aud opts nonce) payloadStr fld val sg
      = .ok (signParts (map_to_part buildHeaderMap)
          (map_to_part (setKey fld val (buildPayloadMap issuer aud opts nonce))) sg) := by
  simp only [mutate_field]
  rw [splitOnDot_buildToken, if_neg (by decide : ¬(payloadStr = headerStr)), if_pos trivial]
  simp only []
  rw [part_to_map_map_to_part _ hwf]
  simp only []
  rw [if_pos hct]

/-! ### Segment lemmas for the serialized records -/
theorem optEntry_contains_ne {α : Type} (k k2 : Text) (f : α → Jval) (o : Option α)
    (h : ¬k = k2) : containsKey k (optEntry k2 f o) = false := by
  cases o <;> simp [optEntry, containsKey, h]

theorem optEntry_keys_ne {α : Type} (k k2 : Text) (f : α → Jval) (o : Option α)
    (h : ¬k = k2) : ∀ kv ∈ optEntry k2 f o, ¬k = kv.1 := by
  intro kv hkv
  cases o
  · simp [optEntry] at hkv
  · simp [optEntry] at hkv
    subst hkv
    exact h

theorem listEntry_keys_ne {α : Type} (k k2 : Text) (f : List α → Jval) (l : List α)
    (h : ¬k = k2) : ∀ kv ∈ listEntry k2 f l, ¬k = kv.1 := by
  intro kv hkv
  cases l
  · simp [listEntry] at hkv
  · simp [listEntry] at hkv
    subst hkv
    exact h

theorem keys_ne_nil (k : Text) : ∀ kv ∈ ([] : List (Text × Jval)), ¬k = kv.1 := by simp

theorem keys_ne_cons (k a : Text) (v : Jval) (rest : List (Text × Jval)) (h : ¬k = a)
    (hr : ∀ kv ∈ rest, ¬k = kv.1) : ∀ kv ∈ (a, v) :: rest, ¬k = kv.1 := by
  intro kv hkv
  rcases List.mem_cons.mp hkv with rfl | h2
  · exact h
  · exact hr kv h2

theorem lookupKey_here (k : Text) (v : Jval) (b : List (Text × Jval)) :
    lookupKey k ((k, v) :: b) = some v := by
  simp [lookupKey]

/-- The `exp` assertion is present on the wire exactly when the `Some(86)`
skip marker is not set. -/
theorem serPayload_contains_exp (p : UcanPayloadAssertions) :
    containsKey (txt "exp") (serUcanPayloadAssertions p)
      = !is_skip_expiration_marker p.exp := by
  unfold serUcanPayloadAssertions
  rw [containsKey_append, containsKey_append, containsKey_append, containsKey_append,
    containsKey_append, containsKey_append, containsKey_append, containsKey_append]
  rw [optEntry_contains_ne _ _ _ _ (by decide), optEntry_contains_ne _ _ _ _ (by decide),
    optEntry_contains_ne _ _ _ _ (by decide), optEntry_contains_ne _ _ _ _ (by decide),
    optEntry_contains_ne _ _ _ _ (by decide), optEntry_contains_ne _ _ _ _ (by decide),
    optEntry_contains_ne _ _ _ _ (by decide), optEntry_contains_ne _ _ _ _ (by decide)]
  cases hm : is_skip_expiration_marker p.exp <;> simp [hm, containsKey]

/-- An absent (`None`) `exp` assertion serializes as an explicit `null`. -/
theorem serPayload_lookup_exp_none (p : UcanPayloadAssertions) (h : p.exp = none) :
    lookupKey (txt "exp") (serUcanPayloadAssertions p) = some Jval.null := by
  unfold serUcanPayloadAssertions
  simp only [List.append_assoc]
  rw [lookupKey_append_right _ _ _ (optEntry_keys_ne _ _ _ _ (by decide)),
    lookupKey_append_right _ _ _ (optEntry_keys_ne _ _ _ _ (by decide)),
    lookupKey_append_right _ _ _ (optEntry_keys_ne _ _ _ _ (by decide))]
  rw [h]
  rw [if_neg (by decide)]
  simp only [List.cons_append]
  exact lookupKey_here _ _ _

/-! ### Nonce isolation in the built payload map -/
theorem eraseKey_head (k : Text) (v : Jval) (b : List (Text × Jval)) :
    eraseKey k ((k, v) :: b) = b := by
  simp [eraseKey]

/-- Erasing `nnc` from the built payload map cancels the only
nonce-dependent entry: the rest of the map never mentions the nonce. -/
theorem eraseKey_nnc_buildPayloadMap (issuer : Signer) (aud : Text) (opts : UcanOptions)
    (n1 n2 : Text) :
    eraseKey (txt "nnc") (buildPayloadMap issuer aud opts n1)
      = eraseKey (txt "nnc") (buildPayloadMap issuer aud opts n2) := by
  unfold buildPayloadMap
  simp only [List.append_assoc]
  rw [eraseKey_append_left _ _ _ (keys_ne_cons _ _ _ _ (by decide) (keys_ne_cons _ _ _ _
      (by decide) (keys_ne_cons _ _ _ _ (by decide) (keys_ne_nil _)))),
    eraseKey_append_left _ _ _ (listEntry_keys_ne _ _ _ _ (by decide)),
    eraseKey_append_left _ _ _ (keys_ne_cons _ _ _ _ (by decide) (keys_ne_nil _)),
    eraseKey_append_left _ _ _ (optEntry_keys_ne _ _ _ _ (by decide))]
  rw [eraseKey_append_left _ _ _ (keys_ne_cons _ _ _ _ (by decide) (keys_ne_cons _ _ _ _
      (by decide) (keys_ne_cons _ _ _ _ (by decide) (keys_ne_nil _)))),
    eraseKey_append_left _ _ _ (listEntry_keys_ne _ _ _ _ (by decide)),
    eraseKey_append_left _ _ _ (keys_ne_cons _ _ _ _ (by decide) (keys_ne_nil _)),
    eraseKey_append_left _ _ _ (optEntry_keys_ne _ _ _ _ (by decide))]
  have heq : ∀ (v : Jval) (rest : List (Text × Jval)),
      eraseKey (txt "nnc") ([(txt "nnc", v)] ++ rest) = rest := by
    intro v rest
    rw [List.singleton_append, eraseKey_head]
  cases han : opts.add_nonce
  · have hc : ¬(false = true) := by simp
    rw [if_neg hc, if_neg hc]
  · rw [if_pos rfl, if_pos rfl]
    rw [heq, heq]

theorem lookup_nnc_buildPayloadMap (issuer : Signer) (aud : Text) (opts : UcanOptions)
    (n : Text) (h : opts.add_nonce = true) :
    lookupKey (txt "nnc") (buildPayloadMap issuer aud opts n) = some (Jval.str n) := by
  unfold buildPayloadMap
  simp only [List.append_assoc]
  rw [lookupKey_append_right _ _ _ (keys_ne_cons _ _ _ _ (by decide) (keys_ne_cons _ _ _ _
      (by decide) (keys_ne_cons _ _ _ _ (by decide) (keys_ne_nil _)))),
    lookupKey_append_right _ _ _ (listEntry_keys_ne _ _ _ _ (by decide)),
    lookupKey_append_right _ _ _ (keys_ne_cons _ _ _ _ (by decide) (keys_ne_nil _)),
    lookupKey_append_right _ _ _ (optEntry_keys_ne _ _ _ _ (by decide))]
  rw [if_pos (by simp [h])]
  simp only [List.cons_append]
  exact lookupKey_here _ _ _

theorem lookup_exp_buildPayloadMap_num (issuer : Signer) (aud nonce : Text) (e : Nat) :
    lookupKey (txt "exp") (buildPayloadMap issuer aud { expiration := some e } nonce)
      = some (Jval.num e) := by
  rw [buildPayloadMap_exp_eq]
  rw [show ([(txt "aud", Jval.str aud), (txt "cap", Jval.obj []), (txt "exp", Jval.num e),
      (txt "iss", Jval.str issuer.did), (txt "ucv", Jval.str ucvStr)])
      = [(txt "aud", Jval.str aud), (txt "cap", Jval.obj [])] ++ (txt "exp", Jval.num e) ::
        [(txt "iss", Jval.str issuer.did), (txt "ucv", Jval.str ucvStr)] from rfl]
  rw [lookupKey_append_right _ _ _ (keys_ne_cons _ _ _ _ (by decide)
    (keys_ne_cons _ _ _ _ (by decide) (keys_ne_nil _)))]
  exact lookupKey_here _ _ _

/-! ### Shared fixture-block lemmas -/
theorem removed_header_block (ids : Identities) (nonce fld : Text) :
    tamperOk (remove_field (buildToken ids.alice ids.bob.did {} nonce) headerStr fld
        ids.alice)
      = signParts (map_to_part (eraseKey fld buildHeaderMap))
          (map_to_part (buildPayloadMap ids.alice ids.bob.did {} nonce)) ids.alice := by
  rw [remove_header_field_shape]
  rfl

theorem removed_payload_block (ids : Identities) (nonce fld : Text)
    (hd : ids.alice.did.all validCpB = true) (ha : ids.bob.did.all validCpB = true) :
    tamperOk (remove_field (buildToken ids.alice ids.bob.did {} nonce) payloadStr fld
        ids.alice)
      = signParts (map_to_part buildHeaderMap)
          (map_to_part (eraseKey fld (buildPayloadMap ids.alice ids.bob.did {} nonce)))
          ids.alice
  ∧ part_to_map (map_to_part (eraseKey fld (buildPayloadMap ids.alice ids.bob.did {} nonce)))
      = some (eraseKey fld (buildPayloadMap ids.alice ids.bob.did {} nonce))
  ∧ containsKey fld (eraseKey fld (buildPayloadMap ids.alice ids.bob.did {} nonce))
      = false := by
  have hwf := wf_payload_default ids.alice ids.bob.did nonce hd ha
  refine ⟨?_, ?_, ?_⟩
  · rw [remove_payload_field_shape _ _ _ _ _ _ hwf]
    rfl
  · exact part_to_map_map_to_part _ (eraseKey_wfB _ _ hwf)
  · have hs : keysSorted (buildPayloadMap ids.alice ids.bob.did {} nonce) = true := by
      simp only [Jval.wfB, Bool.and_eq_true] at hwf
      exact hwf.1
    exact eraseKey_containsKey_self _ _ hs

/-! ## The claims -/
/-- C1: for every three-part token, every field name and both part names,
`remove_field` and `mutate_field` return a token whose part not named by
`part_name` is byte-identical to the corresponding part of the input
token; only the named part and the signature part are recomputed. -/
theorem tamper_isolation (tok t0 t1 t2 fld : Text) (val : Jval) (sg : Signer)
    (hsplit : splitOnDot tok = [t0, t1, t2]) :
    (∀ t', remove_field tok headerStr fld sg = .ok t' →
        ∃ h2 s2, splitOnDot t' = [h2, t1, s2])
  ∧ (∀ t', remove_field tok payloadStr fld sg = .ok t' →
        ∃ p2 s2, splitOnDot t' = [t0, p2, s2])
  ∧ (∀ t', mutate_field tok headerStr fld val sg = .ok t' →
        ∃ h2 s2, splitOnDot t' = [h2, t1, s2])
  ∧ (∀ t', mutate_field tok payloadStr fld val sg = .ok t' →
        ∃ p2 s2, splitOnDot t' = [t0, p2, s2]) := by
  have ht0 : ∀ c ∈ t0, c ≠ 46 :=
    splitOnDot_parts_no_dot tok t0 (by rw [hsplit]; simp)
  have ht1 : ∀ c ∈ t1, c ≠ 46 :=
    splitOnDot_parts_no_dot tok t1 (by rw [hsplit]; simp)
  refine ⟨?_, ?_, ?_, ?_⟩
  · intro t' h
    simp only [remove_field, hsplit, if_true] at h
    cases hm : part_to_map t0 with
    | none => rw [hm] at h; simp at h
    | some m =>
        rw [hm] at h
        simp only [Except.ok.injEq] at h
        subst h
        exact ⟨_, _, splitOnDot_signParts _ _ _ (map_to_part_no_dot _) ht1⟩
  · intro t' h
    simp only [remove_field, hsplit, if_true] at h
    rw [if_neg (show ¬(payloadStr = headerStr) by decide)] at h
    cases hm : part_to_map t1 with
    | none => rw [hm] at h; simp at h
    | some m =>
        rw [hm] at h
        simp only [Except.ok.injEq] at h
        subst h
        exact ⟨_, _, splitOnDot_signParts _ _ _ ht0 (map_to_part_no_dot _)⟩
  · intro t' h
    simp only [mutate_field, hsplit, if_true] at h
    cases hm : part_to_map t0 with
    | none => rw [hm] at h; simp at h
    | some m =>
        rw [hm] at h
        simp only [] at h
        cases hct : containsKey fld m with
        | false =>
            rw [hct] at h
            rw [if_neg (by simp)] at h
            simp at h
        | true =>
            rw [hct] at h
            rw [if_pos rfl] at h
            simp only [Except.ok.injEq] at h
            subst h
            exact ⟨_, _, splitOnDot_signParts _ _ _ (map_to_part_no_dot _) ht1⟩
  · intro t' h
    simp only [mutate_field, hsplit, if_true] at h
    rw [if_neg (show ¬(payloadStr = headerStr) by decide)] at h
    cases hm : part_to_map t1 with
    | none => rw [hm] at h; simp at h
    | some m =>
        rw [hm] at h
        simp only [] at h
        cases hct : containsKey fld m with
        | false =>
            rw [hct] at h
            rw [if_neg (by simp)] at h
            simp at h
        | true =>
            rw [hct] at h
            rw [if_pos rfl] at h
            simp only [Except.ok.injEq] at h
            subst h
            exact ⟨_, _, splitOnDot_signParts _ _ _ ht0 (map_to_part_no_dot _)⟩

/-- C1 witness: removing the header field `alg` from a concretely built
token leaves the payload part byte-identical. -/
theorem tamper_isolation_witness :
    ∃ h2 s2,
      splitOnDot (signParts (map_to_part (eraseKey (txt "alg") buildHeaderMap))
          (map_to_part (buildPayloadMap modelIdentities.alice bobDid {} []))
          modelIdentities.alice)
        = [h2, map_to_part (buildPayloadMap modelIdentities.alice bobDid {} []), s2] :=
  (tamper_isolation (buildToken modelIdentities.alice bobDid {} [])
    (map_to_part buildHeaderMap)
    (map_to_part (buildPayloadMap modelIdentities.alice bobDid {} []))
    (base64urlEncode (modelIdentities.alice.sign (utf8Encode (map_to_part buildHeaderMap
      ++ 46 :: map_to_part (buildPayloadMap modelIdentities.alice bobDid {} [])))))
    (txt "alg") Jval.null modelIdentities.alice
    (splitOnDot_buildToken modelIdentities.alice bobDid {} [])).1
    _ (remove_header_field_shape modelIdentities.alice modelIdentities.alice bobDid {} []
      (txt "alg"))

/-- C3: for every three-part token and both part names, a `mutate_field`
request naming a field absent from the decoded named part fails with
`FieldNotFound` instead of inserting the field. -/
theorem mutate_absent_field (tok t0 t1 t2 fld : Text) (val : Jval) (sg : Signer)
    (hsplit : splitOnDot tok = [t0, t1, t2]) :
    (∀ m, part_to_map t0 = some m → containsKey fld m = false →
        mutate_field tok headerStr fld val sg = .error .fieldNotFound)
  ∧ (∀ m, part_to_map t1 = some m → containsKey fld m = false →
        mutate_field tok payloadStr fld val sg = .error .fieldNotFound) := by
  constructor
  · intro m hm hct
    simp only [mutate_field, hsplit, if_true]
    rw [hm]
    simp only []
    rw [hct]
    rw [if_neg (by simp)]
  · intro m hm hct
    simp only [mutate_field, hsplit, if_true]
    rw [if_neg (show ¬(payloadStr = headerStr) by decide)]
    rw [hm]
    simp only []
    rw [hct]
    rw [if_neg (by simp)]

/-- C3 witness: mutating the absent header field `nbf` on a concretely
built token fails with `FieldNotFound`. -/
theorem mutate_absent_field_witness :
    mutate_field (buildToken modelIdentities.alice bobDid {} []) headerStr (txt "nbf")
      Jval.null modelIdentities.alice = .error .fieldNotFound :=
  (mutate_absent_field (buildToken modelIdentities.alice bobDid {} [])
    (map_to_part buildHeaderMap)
    (map_to_part (buildPayloadMap modelIdentities.alice bobDid {} []))
    (base64urlEncode (modelIdentities.alice.sign (utf8Encode (map_to_part buildHeaderMap
      ++ 46 :: map_to_part (buildPayloadMap modelIdentities.alice bobDid {} [])))))
    (txt "nbf") Jval.null modelIdentities.alice
    (splitOnDot_buildToken modelIdentities.alice bobDid {} [])).1
    buildHeaderMap (part_to_map_map_to_part _ buildHeaderMap_wf) (by decide)

/-- C4: decoding an encoded field map recovers the map exactly, for every
well-formed map (sorted keys, scalar-valued texts — the JSON-representable
maps of the canonical codec), and the encoding is deterministic. -/
theorem codec_roundtrip (m m2 : List (Text × Jval)) (h : (Jval.obj m).wfB = true) :
    part_to_map (map_to_part m) = some m
  ∧ (m = m2 → map_to_part m = map_to_part m2) := by
  constructor
  · exact part_to_map_map_to_part m h
  · intro h2
    rw [h2]

/-- C4 witness: the canonical header map round-trips. -/
theorem codec_roundtrip_witness :
    part_to_map (map_to_part buildHeaderMap) = some buildHeaderMap
  ∧ (buildHeaderMap = buildHeaderMap → map_to_part buildHeaderMap
      = map_to_part buildHeaderMap) :=
  codec_roundtrip buildHeaderMap buildHeaderMap buildHeaderMap_wf

/-- C5: the assertions serializer omits `exp` exactly on the `Some(86)`
sentinel, serializes an absent (`None`) `exp` as an explicit `null`, and
the missing-expiration refute fixture expresses expected omission by
setting `exp` to `Some(86)`. -/
theorem exp_skip_sentinel :
    (∀ p : UcanPayloadAssertions,
        (containsKey (txt "exp") (serUcanPayloadAssertions p) = false ↔ p.exp = some 86))
  ∧ (∀ p : UcanPayloadAssertions, p.exp = none →
        lookupKey (txt "exp") (serUcanPayloadAssertions p) = some Jval.null)
  ∧ (∀ v : Option Nat, is_skip_expiration_marker v = true ↔ v = some 86)
  ∧ (∀ (ids : Identities) (nonce : Text),
        (missing_expiration ids nonce).assertions.payload.exp = some 86) := by
  refine ⟨?_, ?_, ?_, ?_⟩
  · intro p
    rw [serPayload_contains_exp]
    simp [is_skip_expiration_marker]
  · intro p h
    exact serPayload_lookup_exp_none p h
  · intro v
    simp [is_skip_expiration_marker]
  · intro ids nonce
    rfl

/-- C5 witness: an all-absent assertions record with `exp = None` carries
an explicit `null`, and the sentinel test accepts exactly `Some(86)`. -/
theorem exp_skip_sentinel_witness :
    lookupKey (txt "exp")
      (serUcanPayloadAssertions ⟨none, none, none, none, none, none, none, none, none⟩)
      = some Jval.null :=
  exp_skip_sentinel.2.1 ⟨none, none, none, none, none, none, none, none, none⟩ rfl

/-- C7: the refute catalog's expired fixture is built with issuer alice,
audience bob and expiration 1; its errors list is exactly `expired` and
its expected payload assertion (and built payload map) carry `exp = 1`. -/
theorem expired_fixture (ids : Identities) (hasher : Hasher) (nonce : Text) :
    expired ids nonce ∈ refuteFixtures ids hasher nonce
  ∧ (expired ids nonce).errors = [txt "expired"]
  ∧ (expired ids nonce).name = txt "UCAN has expired"
  ∧ (expired ids nonce).assertions.payload.exp = some 1
  ∧ (expired ids nonce).assertions.payload.iss = some ids.alice.did
  ∧ (expired ids nonce).assertions.payload.aud = some ids.bob.did
  ∧ (expired ids nonce).token
      = buildToken ids.alice ids.bob.did { expiration := some 1 } nonce
  ∧ lookupKey (txt "exp")
      (buildPayloadMap ids.alice ids.bob.did { expiration := some 1 } nonce)
      = some (Jval.num 1) := by
  refine ⟨?_, rfl, rfl, rfl, rfl, rfl, rfl, ?_⟩
  · unfold refuteFixtures
    exact List.mem_cons_self _ _
  · exact lookup_exp_buildPayloadMap_num ids.alice ids.bob.did nonce 1

set_option maxHeartbeats 2000000 in
/-- C6: for each required field (alg, typ from the header; ucv, iss, aud,
exp, cap from the payload) the refute catalog contains a fixture whose
token is the base token with exactly that field removed by `remove_field`
(the other part reused byte-identically), whose expected assertions mark
the field absent (`None`, or the `Some(86)` omission sentinel for `exp`),
and whose errors list is exactly `missingField`. -/
theorem missing_field_fixtures (ids : Identities) (hasher : Hasher) (nonce : Text)
    (hd : ids.alice.did.all validCpB = true) (ha : ids.bob.did.all validCpB = true) :
    (missing_algorithm ids nonce ∈ refuteFixtures ids hasher nonce
      ∧ (missing_algorithm ids nonce).errors = [txt "missingField"]
      ∧ (missing_algorithm ids nonce).assertions.header.alg = none
      ∧ (missing_algorithm ids nonce).token
          = signParts (map_to_part (eraseKey (txt "alg") buildHeaderMap))
              (map_to_part (buildPayloadMap ids.alice ids.bob.did {} nonce)) ids.alice
      ∧ part_to_map (map_to_part (eraseKey (txt "alg") buildHeaderMap))
          = some (eraseKey (txt "alg") buildHeaderMap)
      ∧ containsKey (txt "alg") (eraseKey (txt "alg") buildHeaderMap) = false)
  ∧ (missing_type ids nonce ∈ refuteFixtures ids hasher nonce
      ∧ (missing_type ids nonce).errors = [txt "missingField"]
      ∧ (missing_type ids nonce).assertions.header.typ = none
      ∧ (missing_type ids nonce).token
          = signParts (map_to_part (eraseKey (txt "typ") buildHeaderMap))
              (map_to_part (buildPayloadMap ids.alice ids.bob.did {} nonce)) ids.alice
      ∧ part_to_map (map_to_part (eraseKey (txt "typ") buildHeaderMap))
          = some (eraseKey (txt "typ") buildHeaderMap)
      ∧ containsKey (txt "typ") (eraseKey (txt "typ") buildHeaderMap) = false)
  ∧ (missing_version ids nonce ∈ refuteFixtures ids hasher nonce
      ∧ (missing_version ids nonce).errors = [txt "missingField"]
      ∧ (missing_version ids nonce).assertions.payload.ucv = none
      ∧ (missing_version ids nonce).token
          = signParts (map_to_part buildHeaderMap)
              (map_to_part (eraseKey (txt "ucv")
                (buildPayloadMap ids.alice ids.bob.did {} nonce))) ids.alice
      ∧ part_to_map (map_to_part (eraseKey (txt "ucv")
            (buildPayloadMap ids.alice ids.bob.did {} nonce)))
          = some (eraseKey (txt "ucv") (buildPayloadMap ids.alice ids.bob.did {} nonce))
      ∧ containsKey (txt "ucv")
          (eraseKey (txt "ucv") (buildPayloadMap ids.alice ids.bob.did {} nonce)) = false)
  ∧ (missing_issuer ids nonce ∈ refuteFixtures ids hasher nonce
      ∧ (missing_issuer ids nonce).errors = [txt "missingField"]
      ∧ (missing_issuer ids nonce).assertions.payload.iss = none
      ∧ (missing_issuer ids nonce).token
          = signParts (map_to_part buildHeaderMap)
              (map_to_part (eraseKey (txt "iss")
                (buildPayloadMap ids.alice ids.bob.did {} nonce))) ids.alice
      ∧ part_to_map (map_to_part (eraseKey (txt "iss")
            (buildPayloadMap ids.alice ids.bob.did {} nonce)))
          = some (eraseKey (txt "iss") (buildPayloadMap ids.alice ids.bob.did {} nonce))
      ∧ containsKey (txt "iss")
          (eraseKey (txt "iss") (buildPayloadMap ids.alice ids.bob.did {} nonce)) = false)
  ∧ (missing_audience ids nonce ∈ refuteFixtures ids hasher nonce
      ∧ (missing_audience ids nonce).errors = [txt "missingField"]
      ∧ (missing_audience ids nonce).assertions.payload.aud = none
      ∧ (missing_audience ids nonce).token
          = signParts (map_to_part buildHeaderMap)
              (map_to_part (eraseKey (txt "aud")
                (buildPayloadMap ids.alice ids.bob.did {} nonce))) ids.alice
      ∧ part_to_map (map_to_part (eraseKey (txt "aud")
            (buildPayloadMap ids.alice ids.bob.did {} nonce)))
          = some (eraseKey (txt "aud") (buildPayloadMap ids.alice ids.bob.did {} nonce))
      ∧ containsKey (txt "aud")
          (eraseKey (txt "aud") (buildPayloadMap ids.alice ids.bob.did {} nonce)) = false)
  ∧ (missing_expiration ids nonce ∈ refuteFixtures ids hasher nonce
      ∧ (missing_expiration ids nonce).errors = [txt "missingField"]
      ∧ (missing_expiration ids nonce).assertions.payload.exp = some 86
      ∧ is_skip_expiration_marker (missing_expiration ids nonce).assertions.payload.exp
          = true
      ∧ (missing_expiration ids nonce).token
          = signParts (map_to_part buildHeaderMap)
              (map_to_part (eraseKey (txt "exp")
                (buildPayloadMap ids.alice ids.bob.did {} nonce))) ids.alice
      ∧ part_to_map (map_to_part (eraseKey (txt "exp")
            (buildPayloadMap ids.alice ids.bob.did {} nonce)))
          = some (eraseKey (txt "exp") (buildPayloadMap ids.alice ids.bob.did {} nonce))
      ∧ containsKey (txt "exp")
          (eraseKey (txt "exp") (buildPayloadMap ids.alice ids.bob.did {} nonce)) = false)
  ∧ (missing_capabilities ids nonce ∈ refuteFixtures ids hasher nonce
      ∧ (missing_capabilities ids nonce).errors = [txt "missingField"]
      ∧ (missing_capabilities ids nonce).assertions.payload.cap = none
      ∧ (missing_capabilities ids nonce).token
          = signParts (map_to_part buildHeaderMap)
              (map_to_part (eraseKey (txt "cap")
                (buildPayloadMap ids.alice ids.bob.did {} nonce))) ids.alice
      ∧ part_to_map (map_to_part (eraseKey (txt "cap")
            (buildPayloadMap ids.alice ids.bob.did {} nonce)))
          = some (eraseKey (txt "cap") (buildPayloadMap ids.alice ids.bob.did {} nonce))
      ∧ containsKey (txt "cap")
          (eraseKey (txt "cap") (buildPayloadMap ids.alice ids.bob.did {} nonce)) = false) := by
  have hucv := removed_payload_block ids nonce (txt "ucv") hd ha
  have hiss := removed_payload_block ids nonce (txt "iss") hd ha
  have haud := removed_payload_block ids nonce (txt "aud") hd ha
  have hexp := removed_payload_block ids nonce (txt "exp") hd ha
  have hcap := removed_payload_block ids nonce (txt "cap") hd ha
  refine ⟨⟨?_, rfl, rfl, removed_header_block ids nonce (txt "alg"),
      part_to_map_map_to_part _ (by decide), by decide⟩,
    ⟨?_, rfl, rfl, removed_header_block ids nonce (txt "typ"),
      part_to_map_map_to_part _ (by decide), by decide⟩,
    ⟨?_, rfl, rfl, hucv.1, hucv.2.1, hucv.2.2⟩,
    ⟨?_, rfl, rfl, hiss.1, hiss.2.1, hiss.2.2⟩,
    ⟨?_, rfl, rfl, haud.1, haud.2.1, haud.2.2⟩,
    ⟨?_, rfl, rfl, rfl, hexp.1, hexp.2.1, hexp.2.2⟩,
    ⟨?_, rfl, rfl, hcap.1, hcap.2.1, hcap.2.2⟩⟩ <;> unfold refuteFixtures
  · exact List.mem_cons_of_mem _ (List.mem_cons_of_mem _ (List.mem_cons_of_mem _ (List.mem_cons_of_mem _ (List.mem_cons_of_mem _ (List.mem_cons_self _ _)))))
  · exact List.mem_cons_of_mem _ (List.mem_cons_of_mem _ (List.mem_cons_of_mem _ (List.mem_cons_of_mem _ (List.mem_cons_self _ _))))
  · exact List.mem_cons_of_mem _ (List.mem_cons_of_mem _ (List.mem_cons_of_mem _ (List.mem_cons_of_mem _ (List.mem_cons_of_mem _ (List.mem_cons_of_mem _ (List.mem_cons_self _ _))))))
  · exact List.mem_cons_of_mem _ (List.mem_cons_of_mem _ (List.mem_cons_of_mem _ (List.mem_cons_of_mem _ (List.mem_cons_of_mem _ (List.mem_cons_of_mem _ (List.mem_cons_of_mem _ (List.mem_cons_self _ _)))))))
  · exact List.mem_cons_of_mem _ (List.mem_cons_of_mem _ (List.mem_cons_of_mem _ (List.mem_cons_of_mem _ (List.mem_cons_of_mem _ (List.mem_cons_of_mem _ (List.mem_cons_of_mem _ (List.mem_cons_of_mem _ (List.mem_cons_self _ _))))))))
  · exact List.mem_cons_of_mem _ (List.mem_cons_of_mem _ (List.mem_cons_of_mem _ (List.mem_cons_of_mem _ (List.mem_cons_of_mem _ (List.mem_cons_of_mem _ (List.mem_cons_of_mem _ (List.mem_cons_of_mem _ (List.mem_cons_of_mem _ (List.mem_cons_self _ _)))))))))
  · exact List.mem_cons_of_mem _ (List.mem_cons_of_mem _ (List.mem_cons_of_mem _ (List.mem_cons_of_mem _ (List.mem_cons_of_mem _ (List.mem_cons_of_mem _ (List.mem_cons_of_mem _ (List.mem_cons_of_mem _ (List.mem_cons_of_mem _ (List.mem_cons_of_mem _ (List.mem_cons_self _ _))))))))))

/-- C6 witness: under the concrete identities, the missing-algorithm
fixture carries exactly the `missingField` error. -/
theorem missing_field_fixtures_witness :
    (missing_algorithm modelIdentities []).errors = [txt "missingField"] :=
  (missing_field_fixtures modelIdentities modelHasher [] (by decide) (by decide)).1.2.1

/-- C8: building a fixture token twice with the same inputs and no nonce
request is byte-deterministic even across different ambient nonces; with
a nonce requested, the two tokens share their header part byte-for-byte
and their payload maps agree exactly outside the `nnc` field, which holds
the respective nonce. -/
theorem nonce_determinism (issuer : Signer) (aud : Text) (opts : UcanOptions)
    (n1 n2 : Text) :
    (opts.add_nonce = false →
        buildToken issuer aud opts n1 = buildToken issuer aud opts n2)
  ∧ (opts.add_nonce = true →
        (splitOnDot (buildToken issuer aud opts n1)).get? 0
            = (splitOnDot (buildToken issuer aud opts n2)).get? 0
      ∧ eraseKey (txt "nnc") (buildPayloadMap issuer aud opts n1)
            = eraseKey (txt "nnc") (buildPayloadMap issuer aud opts n2)
      ∧ lookupKey (txt "nnc") (buildPayloadMap issuer aud opts n1) = some (Jval.str n1)
      ∧ lookupKey (txt "nnc") (buildPayloadMap issuer aud opts n2)
            = some (Jval.str n2)) := by
  constructor
  · intro h
    have hmap : buildPayloadMap issuer aud opts n1 = buildPayloadMap issuer aud opts n2 := by
      unfold buildPayloadMap
      rw [if_neg (by simp [h]), if_neg (by simp [h])]
    unfold buildToken
    rw [hmap]
  · intro h
    refine ⟨?_, eraseKey_nnc_buildPayloadMap issuer aud opts n1 n2,
      lookup_nnc_buildPayloadMap issuer aud opts n1 h,
      lookup_nnc_buildPayloadMap issuer aud opts n2 h⟩
    rw [splitOnDot_buildToken, splitOnDot_buildToken]
    rfl

/-- C8 witness: with no nonce requested, two builds under different
ambient nonces emit the identical token. -/
theorem nonce_determinism_witness :
    buildToken modelIdentities.alice bobDid {} (txt "one")
      = buildToken modelIdentities.alice bobDid {} (txt "two") :=
  (nonce_determinism modelIdentities.alice bobDid {} (txt "one") (txt "two")).1 rfl

/-- C9: the toCID catalog is exactly the SHA2-256 fixture followed by the
BLAKE3-256 fixture; both carry the same token bytes, each records the CID
of those bytes under its own hash code, and the two CIDs differ. -/
theorem tocid_catalog (ids : Identities) (hash : Hasher) (nonce : Text) :
    (toCidFixtures ids hash nonce).length = 2
  ∧ toCidFixtures ids hash nonce
      = [computes_cid_with_sha2_256_hasher ids hash nonce,
         computes_cid_with_blake3_256_hasher ids hash nonce]
  ∧ (computes_cid_with_sha2_256_hasher ids hash nonce).hasher = txt "SHA2-256"
  ∧ (computes_cid_with_blake3_256_hasher ids hash nonce).hasher = txt "BLAKE3-256"
  ∧ (computes_cid_with_sha2_256_hasher ids hash nonce).token
      = (computes_cid_with_blake3_256_hasher ids hash nonce).token
  ∧ (computes_cid_with_sha2_256_hasher ids hash nonce).cid
      = hash.hash .sha2_256
          (utf8Encode (computes_cid_with_sha2_256_hasher ids hash nonce).token)
  ∧ (computes_cid_with_blake3_256_hasher ids hash nonce).cid
      = hash.hash .blake3_256
          (utf8Encode (computes_cid_with_blake3_256_hasher ids hash nonce).token)
  ∧ ¬(computes_cid_with_sha2_256_hasher ids hash nonce).cid
      = (computes_cid_with_blake3_256_hasher ids hash nonce).cid :=
  ⟨rfl, rfl, rfl, rfl, rfl, rfl, rfl,
    hash.hash_code_distinct .sha2_256 .blake3_256 _ (by decide)⟩

/-- C10: an unrecognized hasher string does not fail the toCID fixture
constructor: the dispatch silently falls back to SHA2-256, so the output
CID is the SHA2-256 CID while the recorded hasher input keeps the
unrecognized string. -/
theorem tocid_unknown_hasher (hash : Hasher) (name : Text) (issuer : Signer)
    (audience hstr : Text) (opts : UcanOptions) (nonce : Text)
    (h1 : ¬hstr = txt "SHA2-256") (h2 : ¬hstr = txt "BLAKE3-256") :
    hasherCode hstr = .sha2_256
  ∧ (toCid_make_fixture hash name issuer audience hstr opts nonce).hasher = hstr
  ∧ (toCid_make_fixture hash name issuer audience hstr opts nonce).cid
      = hash.hash .sha2_256 (utf8Encode (buildToken issuer audience opts nonce)) := by
  have hc : hasherCode hstr = .sha2_256 := by
    unfold hasherCode
    rw [if_neg h1, if_neg h2]
  refine ⟨hc, rfl, ?_⟩
  show hash.hash (hasherCode hstr) (utf8Encode (buildToken issuer audience opts nonce)) = _
  rw [hc]

/-- C10 witness: the string MD5 is dispatched to the SHA2-256 hash code. -/
theorem tocid_unknown_hasher_witness : hasherCode (txt "MD5") = .sha2_256 :=
  (tocid_unknown_hasher modelHasher (txt "n") modelIdentities.alice bobDid (txt "MD5")
    {} [] (by decide) (by decide)).1

theorem containsKey_iss_buildPayloadMap (issuer : Signer) (aud : Text) (opts : UcanOptions)
    (nonce : Text) :
    containsKey (txt "iss") (buildPayloadMap issuer aud opts nonce) = true := by
  unfold buildPayloadMap
  simp only [List.append_assoc, List.singleton_append, List.cons_append, List.nil_append]
  simp only [containsKey, containsKey_append, containsKey_here]
  simp

/-- C2: refuted in the concrete model: the issuer-mismatch refute fixture
mutates `iss` to mallory's DID but re-signs with alice's key, so the
emitted token's signature verifies under alice's key and not under the
key of the token's stated issuer mallory. -/
theorem emitted_signature_validity :
    ∃ hp pp sp m,
      splitOnDot (issuer_does_not_match_proof_audience modelIdentities modelHasher []).token
        = [hp, pp, sp]
      ∧ part_to_map pp = some m
      ∧ lookupKey (txt "iss") m = some (Jval.str modelIdentities.mallory.did)
      ∧ base64urlDecode sp
          = some (modelIdentities.alice.sign (utf8Encode (hp ++ 46 :: pp)))
      ∧ modelIdentities.alice.verify (utf8Encode (hp ++ 46 :: pp))
          (modelIdentities.alice.sign (utf8Encode (hp ++ 46 :: pp))) = true
      ∧ modelIdentities.mallory.verify (utf8Encode (hp ++ 46 :: pp))
          (modelIdentities.alice.sign (utf8Encode (hp ++ 46 :: pp))) = false := by
  have hcidv : (modelHasher.hash .sha2_256 (utf8Encode (buildToken modelIdentities.alice
      modelIdentities.bob.did {} []))).all validCpB = true := by
    show ((0 : Nat) :: utf8Encode (buildToken modelIdentities.alice
      modelIdentities.bob.did {} [])).all validCpB = true
    rw [List.all_cons, Bool.and_eq_true]
    constructor
    · decide
    · rw [List.all_eq_true]
      intro b hb
      have hlt := utf8Encode_lt_256 _ (buildToken_valid _ _ _ _) b hb
      simp only [validCpB, Bool.or_eq_true, decide_eq_true_eq, Bool.and_eq_true]
      omega
  have hwf6 := wf_payload_proofs modelIdentities.bob modelIdentities.mallory.did []
    (modelHasher.hash .sha2_256 (utf8Encode (buildToken modelIdentities.alice
      modelIdentities.bob.did {} []))) (by decide) (by decide) hcidv
  have hct := containsKey_iss_buildPayloadMap modelIdentities.bob
    modelIdentities.mallory.did
    { proofs := [modelHasher.hash .sha2_256 (utf8Encode (buildToken modelIdentities.alice
      modelIdentities.bob.did {} []))] } []
  have htok : (issuer_does_not_match_proof_audience modelIdentities modelHasher []).token
      = signParts (map_to_part buildHeaderMap)
          (map_to_part (setKey (txt "iss") (Jval.str mutatedIssDid)
            (buildPayloadMap modelIdentities.bob modelIdentities.mallory.did
              { proofs := [modelHasher.hash .sha2_256 (utf8Encode (buildToken
                modelIdentities.alice modelIdentities.bob.did {} []))] } [])))
          modelIdentities.alice := by
    show tamperOk (mutate_field (buildToken modelIdentities.bob modelIdentities.mallory.did
        { proofs := [modelHasher.hash .sha2_256 (utf8Encode (buildToken
          modelIdentities.alice modelIdentities.bob.did {} []))] } [])
        payloadStr (txt "iss") (Jval.str mutatedIssDid) modelIdentities.alice) = _
    rw [mutate_payload_field_shape modelIdentities.bob modelIdentities.alice
      modelIdentities.mallory.did _ [] (txt "iss") (Jval.str mutatedIssDid) hwf6 hct]
    rfl
  refine ⟨map_to_part buildHeaderMap,
    map_to_part (setKey (txt "iss") (Jval.str mutatedIssDid)
      (buildPayloadMap modelIdentities.bob modelIdentities.mallory.did
        { proofs := [modelHasher.hash .sha2_256 (utf8Encode (buildToken
          modelIdentities.alice modelIdentities.bob.did {} []))] } [])),
    base64urlEncode (modelIdentities.alice.sign (utf8Encode (map_to_part buildHeaderMap
      ++ 46 :: map_to_part (setKey (txt "iss") (Jval.str mutatedIssDid)
      (buildPayloadMap modelIdentities.bob modelIdentities.mallory.did
        { proofs := [modelHasher.hash .sha2_256 (utf8Encode (buildToken
          modelIdentities.alice modelIdentities.bob.did {} []))] } []))))),
    setKey (txt "iss") (Jval.str mutatedIssDid)
      (buildPayloadMap modelIdentities.bob modelIdentities.mallory.did
        { proofs := [modelHasher.hash .sha2_256 (utf8Encode (buildToken
          modelIdentities.alice modelIdentities.bob.did {} []))] } []),
    ?_, ?_, ?_, ?_, ?_, ?_⟩
  · rw [htok]
    exact splitOnDot_signParts _ _ _ (map_to_part_no_dot _) (map_to_part_no_dot _)
  · exact part_to_map_map_to_part _ (setKey_wfB _ _ _ (by decide) hwf6)
  · exact lookupKey_setKey_self _ _ _ hct
  · exact base64urlDecode_encode _ (modelIdentities.alice.sign_bytes_lt _)
  · exact modelIdentities.alice.verify_sign _
  · show ((1 % 256 :: List.replicate 63 0 : List Nat)
        == (3 % 256 :: List.replicate 63 0)) = false
    decide


/-- C7 witness: the expired fixture instantiated with the concrete
identities carries exactly the `expired` error. -/
theorem expired_fixture_witness :
    (expired modelIdentities []).errors = [txt "expired"] :=
  (expired_fixture modelIdentities modelHasher []).2.1

/-- C9 witness: with the concrete hasher the two toCID fixtures' content
identifiers differ. -/
theorem tocid_catalog_witness :
    ¬(computes_cid_with_sha2_256_hasher modelIdentities modelHasher []).cid
      = (computes_cid_with_blake3_256_hasher modelIdentities modelHasher []).cid :=
  (tocid_catalog modelIdentities modelHasher []).2.2.2.2.2.2.2
